import Mathlib

/-!
exchange-lib: the UTXO ledger handlers of `exchange/api/api.go`

A shallow embedding of the request handlers `updateUTXO`, `sendTransaction`,
`sendTransactionV2` and of `TxDecode`.

Conventions of the embedding:

* a Go `string` is a Lean `String`; `len` of a string is its UTF-8 byte length
  and the standard-library routines that walk over bytes (`hex.DecodeString`,
  `strconv.ParseUint`) walk over the UTF-8 bytes of the string;
* `uint64` / `uint32` values are natural numbers, reduced `% 2^64` wherever the
  Go arithmetic can wrap;
* a Go `(value, error)` pair is an `Except String value`, a bare `error` is an
  `Option String` (`none` is `nil`);
* a Go pointer that can be nil is an `Option`; a handler that can panic on one
  returns an optional result, `none` when it panics and returns nothing;
* the handlers receive the world (store state and the log of collaborator calls)
  and return the new world next to their result.
-/

namespace ExchangeLib

/-! ## Data model (`db.UTXO`, `db.SpentUTXO`, `types.Transaction`) -/

/-- One stored output, `db.UTXO`. -/
structure UTXO where
  TxId : String
  Vout : Nat
  Address : String
  Coin : String
  Amount : Nat
  Spent : String
  Lock : Nat
deriving DecidableEq, Repr

/-- The audit record `db.SpentUTXO`. -/
structure SpentUTXO where
  SpentTxId : String
  UTXOList : List UTXO
deriving DecidableEq, Repr

/-- A transaction hash, kept as the text that `Hash.String()` renders. -/
structure Hash where
  text : String
deriving DecidableEq, Repr

/-- Rendering of a hash, `Hash.String()`. -/
def Hash.String (h : Hash) : String := h.text

/-- The previous output an input refers to, `types.TxOutPoint`. -/
structure TxOutPoint where
  Hash : Hash
  OutIndex : Nat
deriving DecidableEq, Repr

/-- One transaction input, `types.TxInput` (the fields the handlers read). -/
structure TxInput where
  PreviousOut : TxOutPoint
deriving DecidableEq, Repr

/-- The decoded transaction, `types.Transaction` (the fields the handlers read). -/
structure Transaction where
  TxIn : List TxInput
deriving DecidableEq, Repr

/-! ## Go standard library: strings as bytes, `encoding/hex`, `strconv` -/

/-- The bytes of a Go string. -/
def bytesOf (s : String) : List Nat :=
  s.toUTF8.data.toList.map UInt8.toNat

/-- Go `len(s)` on a string: the number of bytes. -/
def len (s : String) : Nat := (bytesOf s).length

/-- The table `reverseHexTable` of `encoding/hex`: the value of a hex digit, `0xff` for
every other byte. -/
def reverseHexTable (c : Nat) : Nat :=
  if 48 ≤ c ∧ c ≤ 57 then c - 48
  else if 97 ≤ c ∧ c ≤ 102 then c - 97 + 10
  else if 65 ≤ c ∧ c ≤ 70 then c - 65 + 10
  else 255

/-- The loop of `hex.Decode`: pairs of bytes are turned into one byte each; a trailing
single byte is reported as an invalid byte if it is one, as a length error otherwise.
The text of an invalid-byte error stops before the byte it names. -/
def hexDecode : List Nat → Except String (List Nat)
  | [] => .ok []
  | [p] =>
    if reverseHexTable p > 15 then .error "encoding/hex: invalid byte"
    else .error "encoding/hex: odd length hex string"
  | p :: q :: rest =>
    if reverseHexTable p > 15 then .error "encoding/hex: invalid byte"
    else if reverseHexTable q > 15 then .error "encoding/hex: invalid byte"
    else
      match hexDecode rest with
      | .ok bs => .ok ((reverseHexTable p * 16 + reverseHexTable q) :: bs)
      | .error e => .error e

/-- Go `hex.DecodeString`. -/
def hexDecodeString (s : String) : Except String (List Nat) :=
  hexDecode (bytesOf s)

/-- The value `maxUint64`. -/
def maxUint64 : Nat := 2 ^ 64 - 1

/-- The digit loop of `strconv.ParseUint(s, 10, 64)`: `n` is the accumulator; a byte that
is not a decimal digit is a syntax error, an accumulator at or above the cutoff or a
wrapping addition is a range error. -/
def parseUintLoop : List Nat → Nat → Except String Nat
  | [], n => .ok n
  | c :: cs, n =>
    if 48 ≤ c ∧ c ≤ 57 then
      if n ≥ maxUint64 / 10 + 1 then .error "value out of range"
      else
        let n10 := (n * 10) % 2 ^ 64
        let n1 := (n10 + (c - 48)) % 2 ^ 64
        if n1 < n10 ∨ n1 > maxUint64 then .error "value out of range"
        else parseUintLoop cs n1
    else .error "invalid syntax"

/-- Go `strconv.ParseUint(s, 10, 64)`; of the error only its kind is kept. -/
def ParseUint (s : String) : Except String Nat :=
  if s = "" then .error "invalid syntax"
  else parseUintLoop (bytesOf s) 0

/-! ## Collaborators: request context, store, broadcast gateway, codecs -/

deriving instance DecidableEq for Except

/-- The error categories of the REST layer; the handlers of this file use one. -/
inductive ErrorCode where
  | ERROR_UNKNOWN
deriving DecidableEq, Repr

/-- The REST error value `Error{code, message}`. -/
structure Error where
  Code : ErrorCode
  Message : String
deriving DecidableEq, Repr

/-- What a handler hands back as its `interface{}` result. -/
inductive Value where
  | str (s : String)
  | bool (b : Bool)
deriving DecidableEq, Repr

/-- The request context: the form and query maps, `map[string]string`. -/
structure Context where
  Form : String → Option String
  Query : String → Option String

/-- Go `v, _ := ct.Form[k]`: the zero value `""` stands for a missing key. -/
def Context.formValue (ct : Context) (k : String) : String :=
  (ct.Form k).getD ""

/-- The operations of `db.UTXODB` the handlers call, over a store state `σ`. A read
answers from the state and leaves it; a write returns the new state and its `error`. -/
structure UTXODB (σ : Type) where
  GetUTXO : σ → String → Nat → Except String UTXO
  UpdateAddressUTXO : σ → String → UTXO → σ × Option String
  UpdateAddressUTXOMandatory : σ → String → UTXO → σ × Option String
  InsertSpentUTXO : σ → SpentUTXO → σ × Option String

/-- The broadcast gateway `sync.Synchronizer`: the answer of `SendTx` to a raw
transaction. -/
structure Synchronizer where
  SendTx : String → Except String String

/-- The handler receiver `Api`. -/
structure Api (σ : Type) where
  storage : UTXODB σ
  synchronizer : Synchronizer

/-- The codecs of other packages: `Transaction.Deserialize` on the decoded bytes and
`json.Unmarshal` into the slice `[]*db.UTXO`: each element is a pointer to a UTXO, or
nil (`none`) where the JSON text has `null`. -/
structure Codec where
  Deserialize : List Nat → Except String Transaction
  Unmarshal : String → Except String (List (Option UTXO))

/-- One call to a collaborator, with its arguments. -/
inductive Call where
  | SendTx (raw : String)
  | GetUTXO (txId : String) (vout : Nat)
  | UpdateAddressUTXO (address : String) (utxo : UTXO)
  | UpdateAddressUTXOMandatory (address : String) (utxo : UTXO)
  | InsertSpentUTXO (record : SpentUTXO)
deriving DecidableEq, Repr

/-- A call that writes to the store. -/
def Call.isWrite : Call → Bool
  | .UpdateAddressUTXO _ _ => true
  | .UpdateAddressUTXOMandatory _ _ => true
  | .InsertSpentUTXO _ => true
  | _ => false

/-- A call that reaches the store at all. -/
def Call.isStore : Call → Bool
  | .SendTx _ => false
  | _ => true

/-- A call to the broadcast gateway. -/
def Call.isSendTx : Call → Bool
  | .SendTx _ => true
  | _ => false

/-- The world a handler runs in: the store state and the calls made so far, oldest
first. -/
structure World (σ : Type) where
  store : σ
  calls : List Call
deriving DecidableEq

/-- Record one call. -/
def World.log {σ : Type} (w : World σ) (c : Call) : World σ :=
  { w with calls := w.calls ++ [c] }

/-! ## The code of `api.go` -/

/-- The function `TxDecode`. -/
def TxDecode (lib : Codec) (rawTxStr : String) : Except String Transaction :=
  if len rawTxStr % 2 ≠ 0 then
    .error ("invaild raw transaction : " ++ rawTxStr)
  else
    match hexDecodeString rawTxStr with
    | .error err => .error err
    | .ok serializedTx =>
      match lib.Deserialize serializedTx with
      | .error err => .error err
      | .ok tx => .ok tx

/-- The handler `updateUTXO`. The check after reading `lock` tests `amount`, as the
source does, and a `lock` that does not parse is reported as "wrong amount". -/
def updateUTXO {σ : Type} (a : Api σ) (ct : Context) (w : World σ) :
    Except Error Value × World σ :=
  let txid := ct.formValue "txid"
  if len txid = 0 then (.error ⟨.ERROR_UNKNOWN, "txid is required"⟩, w) else
  let vout := ct.formValue "vout"
  if len vout = 0 then (.error ⟨.ERROR_UNKNOWN, "vout is required"⟩, w) else
  let amount := ct.formValue "amount"
  if len amount = 0 then (.error ⟨.ERROR_UNKNOWN, "amount is required"⟩, w) else
  let coin := ct.formValue "coin"
  if len coin = 0 then (.error ⟨.ERROR_UNKNOWN, "coin is required"⟩, w) else
  let lock := ct.formValue "lock"
  if len amount = 0 then (.error ⟨.ERROR_UNKNOWN, "lock is required"⟩, w) else
  let address := ct.formValue "address"
  if len address = 0 then (.error ⟨.ERROR_UNKNOWN, "address is required"⟩, w) else
  let spent := ct.formValue "spent"
  match ParseUint vout with
  | .error _ => (.error ⟨.ERROR_UNKNOWN, "wrong vout"⟩, w)
  | .ok iVout =>
  match ParseUint amount with
  | .error _ => (.error ⟨.ERROR_UNKNOWN, "wrong amount"⟩, w)
  | .ok iAmount =>
  match ParseUint lock with
  | .error _ => (.error ⟨.ERROR_UNKNOWN, "wrong amount"⟩, w)
  | .ok iLock =>
    let utxo : UTXO :=
      { TxId := txid, Vout := iVout, Address := address, Coin := coin,
        Amount := iAmount, Spent := spent, Lock := iLock }
    let r := a.storage.UpdateAddressUTXOMandatory w.store address utxo
    let w1 : World σ :=
      { store := r.1, calls := w.calls ++ [.UpdateAddressUTXOMandatory address utxo] }
    match r.2 with
    | some err => (.error ⟨.ERROR_UNKNOWN, err⟩, w1)
    | none => (.ok (.bool true), w1)

/-- The loop of `sendTransaction` over the supplied list of pointers: every UTXO gets
`Spent = txId` and is handed to `UpdateAddressUTXO`, whose error is dropped. A nil
pointer makes `utxo.Spent = txId` panic: the loop stops there, with the writes made so
far. The second component is the list as it stands after the loop, `none` after a
panic. -/
def markSupplied {σ : Type} (a : Api σ) (txId : String) :
    List (Option UTXO) → World σ → World σ × Option (List UTXO)
  | [], w => (w, some [])
  | none :: _, w => (w, none)
  | some utxo :: rest, w =>
    let utxo1 : UTXO := { utxo with Spent := txId }
    let r := a.storage.UpdateAddressUTXO w.store utxo1.Address utxo1
    let w1 : World σ :=
      { store := r.1, calls := w.calls ++ [.UpdateAddressUTXO utxo1.Address utxo1] }
    let out := markSupplied a txId rest w1
    (out.1, out.2.map (fun marked => utxo1 :: marked))

/-- The handler `sendTransaction` (explicit-list flow). Its result is `none` when the
handler does not return because the loop panicked. -/
def sendTransaction {σ : Type} (lib : Codec) (a : Api σ) (ct : Context) (w : World σ) :
    Option (Except Error Value) × World σ :=
  match ct.Form "raw" with
  | none => (some (.error ⟨.ERROR_UNKNOWN, "raw is required"⟩), w)
  | some raw =>
  match ct.Form "spent" with
  | none => (some (.error ⟨.ERROR_UNKNOWN, "spent is required"⟩), w)
  | some utxos =>
  match lib.Unmarshal utxos with
  | .error err => (some (.error ⟨.ERROR_UNKNOWN, err⟩), w)
  | .ok utxoList =>
    let w0 := w.log (.SendTx raw)
    match a.synchronizer.SendTx raw with
    | .ok txId =>
      let out := markSupplied a txId utxoList w0
      match out.2 with
      | none => (none, out.1)
      | some marked =>
        let spentUtxo : SpentUTXO := { SpentTxId := txId, UTXOList := marked }
        let r := a.storage.InsertSpentUTXO out.1.store spentUtxo
        (some (.ok (.str txId)),
          { store := r.1, calls := out.1.calls ++ [.InsertSpentUTXO spentUtxo] })
    | .error err => (some (.error ⟨.ERROR_UNKNOWN, err⟩), w0)

/-- The loop of `sendTransactionV2` over the decoded inputs: an input whose previous
output `GetUTXO` does not find is skipped; one that is found gets `Spent = txId`, is
handed to `UpdateAddressUTXO` (error dropped) and is appended to `decodeUtxoList`. -/
def resolveInputs {σ : Type} (a : Api σ) (txId : String) :
    List TxInput → World σ → List UTXO → World σ × List UTXO
  | [], w, decodeUtxoList => (w, decodeUtxoList)
  | vin :: rest, w, decodeUtxoList =>
    let spentedTxId := vin.PreviousOut.Hash.String
    let vout := vin.PreviousOut.OutIndex
    let w1 := w.log (.GetUTXO spentedTxId vout)
    match a.storage.GetUTXO w.store spentedTxId vout with
    | .error _ => resolveInputs a txId rest w1 decodeUtxoList
    | .ok utxo =>
      let utxo1 : UTXO := { utxo with Spent := txId }
      let r := a.storage.UpdateAddressUTXO w1.store utxo1.Address utxo1
      let w2 : World σ :=
        { store := r.1, calls := w1.calls ++ [.UpdateAddressUTXO utxo1.Address utxo1] }
      resolveInputs a txId rest w2 (decodeUtxoList ++ [utxo1])

/-- The handler `sendTransactionV2` (decode-resolve flow). -/
def sendTransactionV2 {σ : Type} (lib : Codec) (a : Api σ) (ct : Context) (w : World σ) :
    Except Error Value × World σ :=
  match ct.Form "raw" with
  | none => (.error ⟨.ERROR_UNKNOWN, "raw is required"⟩, w)
  | some raw =>
  match TxDecode lib raw with
  | .error err => (.error ⟨.ERROR_UNKNOWN, err⟩, w)
  | .ok tx =>
    let w0 := w.log (.SendTx raw)
    match a.synchronizer.SendTx raw with
    | .ok txId =>
      let out := resolveInputs a txId tx.TxIn w0 []
      let spentUtxo : SpentUTXO := { SpentTxId := txId, UTXOList := out.2 }
      let r := a.storage.InsertSpentUTXO out.1.store spentUtxo
      (.ok (.str txId), { store := r.1, calls := out.1.calls ++ [.InsertSpentUTXO spentUtxo] })
    | .error err => (.error ⟨.ERROR_UNKNOWN, err⟩, w0)

/-! ## Vocabulary of the specification -/

/-- A byte that is a hexadecimal digit, `0-9`, `a-f` or `A-F`. -/
def isHexDigit (c : Nat) : Bool :=
  (48 ≤ c && c ≤ 57) || (97 ≤ c && c ≤ 102) || (65 ≤ c && c ≤ 70)

/-- A string of valid hexadecimal: every byte is a hexadecimal digit. -/
def IsHex (s : String) : Prop :=
  ∀ c ∈ bytesOf s, isHexDigit c = true

instance (s : String) : Decidable (IsHex s) := by
  unfold IsHex; infer_instance

/-- The number a list of decimal digit bytes writes, most significant digit first. -/
def decimalValue (bs : List Nat) : Nat :=
  bs.foldl (fun n c => n * 10 + (c - 48)) 0

/-- A base-10 unsigned integer representable in 64 bits: at least one byte, every byte
a decimal digit, and the number written below `2^64`. -/
def IsUint64Decimal (s : String) : Prop :=
  bytesOf s ≠ [] ∧ (∀ c ∈ bytesOf s, 48 ≤ c ∧ c ≤ 57) ∧ decimalValue (bytesOf s) < 2 ^ 64

instance (s : String) : Decidable (IsUint64Decimal s) := by
  unfold IsUint64Decimal; infer_instance

/-- A form field that is present and not empty. -/
def Context.has (ct : Context) (k : String) : Prop :=
  ∃ v, ct.Form k = some v ∧ v ≠ ""

/-- The checks the specification asks of an `updateUTXO` request: the six fields are
present and not empty, and the three numeric ones are base-10 unsigned 64-bit
integers. -/
def ValidUpdateRequest (ct : Context) : Prop :=
  ct.has "txid" ∧ ct.has "vout" ∧ ct.has "amount" ∧ ct.has "coin" ∧ ct.has "lock" ∧
    ct.has "address" ∧
    IsUint64Decimal (ct.formValue "vout") ∧ IsUint64Decimal (ct.formValue "amount") ∧
    IsUint64Decimal (ct.formValue "lock")

/-- The UTXO an `updateUTXO` request describes: the parsed values of its fields. -/
def requestedUTXO (ct : Context) : UTXO :=
  { TxId := ct.formValue "txid"
    Vout := decimalValue (bytesOf (ct.formValue "vout"))
    Address := ct.formValue "address"
    Coin := ct.formValue "coin"
    Amount := decimalValue (bytesOf (ct.formValue "amount"))
    Spent := ct.formValue "spent"
    Lock := decimalValue (bytesOf (ct.formValue "lock")) }

/-- The UTXO `u` once the transaction `txId` has spent it: `Spent` is `txId`, every
other field is the one of `u`. -/
def UTXO.spentBy (txId : String) (u : UTXO) : UTXO :=
  { TxId := u.TxId
    Vout := u.Vout
    Address := u.Address
    Coin := u.Coin
    Amount := u.Amount
    Spent := txId
    Lock := u.Lock }

/-- The record of an `InsertSpentUTXO` call. -/
def Call.inserted : Call → Option SpentUTXO
  | .InsertSpentUTXO r => some r
  | _ => none

/-- The previous output an input names, as the pair `GetUTXO` is asked for. -/
def TxInput.key (vin : TxInput) : String × Nat :=
  (vin.PreviousOut.Hash.String, vin.PreviousOut.OutIndex)

/-- Resolution of the decoded inputs as the specification tells it, input by input:
from store state `s`, the inputs leave state `s1`, the resolved UTXOs `L` (in input
order) and the store calls `cs`. An input `GetUTXO` does not find is skipped without a
write; one it finds is upserted under its own address with `Spent = txId`. -/
inductive Resolved {σ : Type} (db : UTXODB σ) (txId : String) :
    σ → List TxInput → σ → List UTXO → List Call → Prop where
  | done (s : σ) : Resolved db txId s [] s [] []
  | miss (s s1 : σ) (vin : TxInput) (rest : List TxInput) (L : List UTXO) (cs : List Call)
      (e : String)
      (hget : db.GetUTXO s vin.key.1 vin.key.2 = .error e)
      (hrest : Resolved db txId s rest s1 L cs) :
      Resolved db txId s (vin :: rest) s1 L (.GetUTXO vin.key.1 vin.key.2 :: cs)
  | hit (s s1 : σ) (vin : TxInput) (rest : List TxInput) (L : List UTXO) (cs : List Call)
      (u : UTXO)
      (hget : db.GetUTXO s vin.key.1 vin.key.2 = .ok u)
      (hrest : Resolved db txId (db.UpdateAddressUTXO s u.Address (u.spentBy txId)).1
        rest s1 L cs) :
      Resolved db txId s (vin :: rest) s1 (u.spentBy txId :: L)
        (.GetUTXO vin.key.1 vin.key.2 ::
          .UpdateAddressUTXO u.Address (u.spentBy txId) :: cs)

/-! ## The store of section 4.2, in memory -/

/-- Modelled from the spec: the state of the UTXO store of `db.UTXODB`, whose code is
not part of the sources at hand: the UTXO records and the SpentUTXO audit records. -/
structure MemStore where
  utxos : List UTXO
  spents : List SpentUTXO
deriving DecidableEq, Repr

/-- Modelled from the spec: lookup of the record with identity `(TxId, Vout)`. -/
def MemStore.find (s : MemStore) (k : String × Nat) : Option UTXO :=
  s.utxos.find? (fun u => decide (u.TxId = k.1 ∧ u.Vout = k.2))

/-- Modelled from the spec: the overwrite keyed by `(TxId, Vout)` behind the best-effort
upsert: the record with the identity of `u` is replaced by `u`, and `u` is created when
there is none. -/
def upsert (u : UTXO) : List UTXO → List UTXO
  | [] => [u]
  | v :: vs =>
    if v.TxId = u.TxId ∧ v.Vout = u.Vout then u :: vs else v :: upsert u vs

/-- Modelled from the spec: the operations of `db.UTXODB` (section 4.2). `GetUTXO`
fails when no record has the identity; `UpdateAddressUTXO` is the best-effort upsert,
overwriting `Spent` too; `UpdateAddressUTXOMandatory` overwrites an existing record and
fails rather than create one; `InsertSpentUTXO` is idempotent by `SpentTxId`, a record
being created at most once per txId. -/
def memDB : UTXODB MemStore where
  GetUTXO := fun s txId vout =>
    match s.find (txId, vout) with
    | some u => .ok u
    | none => .error "utxo not found"
  UpdateAddressUTXO := fun s _ u => ({ s with utxos := upsert u s.utxos }, none)
  UpdateAddressUTXOMandatory := fun s _ u =>
    match s.find (u.TxId, u.Vout) with
    | some _ => ({ s with utxos := upsert u s.utxos }, none)
    | none => (s, some "utxo not found")
  InsertSpentUTXO := fun s r =>
    if s.spents.any (fun x => decide (x.SpentTxId = r.SpentTxId)) then (s, none)
    else ({ s with spents := s.spents ++ [r] }, none)

/-! ## Concrete requests and collaborators used as test inputs -/

/-- A form map given by its entries; no query parameters. -/
def formOf (entries : List (String × String)) : Context where
  Form := fun k => entries.lookup k
  Query := fun _ => none

/-- A codec whose `Deserialize` reads every byte string as the transaction spending
output 0 of `T1`, and whose `Unmarshal` reads the text `[null]` as the list of one nil
pointer and every other text as the one-element list of that output. -/
def sampleCodec : Codec where
  Deserialize := fun _ => .ok { TxIn := [{ PreviousOut := { Hash := ⟨"T1"⟩, OutIndex := 0 } }] }
  Unmarshal := fun text =>
    if text = "[null]" then .ok [none]
    else
      .ok [some { TxId := "T1", Vout := 0, Address := "Addr1", Coin := "MEER",
                  Amount := 100000000, Spent := "", Lock := 0 }]

/-- A gateway that accepts every transaction under the id `txId`. -/
def acceptingGateway (txId : String) : Synchronizer where
  SendTx := fun _ => .ok txId

/-- A gateway that rejects every transaction. -/
def rejectingGateway : Synchronizer where
  SendTx := fun _ => .error "rejected"

/-- A store without state on which every read finds the same record and every write
reports a failure. -/
def failingDB : UTXODB Unit where
  GetUTXO := fun _ txId vout =>
    .ok { TxId := txId, Vout := vout, Address := "Addr1", Coin := "MEER",
          Amount := 100000000, Spent := "", Lock := 0 }
  UpdateAddressUTXO := fun _ _ _ => ((), some "write failed")
  UpdateAddressUTXOMandatory := fun _ _ _ => ((), some "write failed")
  InsertSpentUTXO := fun _ _ => ((), some "write failed")

/-- The record of Scenario A, already spent by `T2`. -/
def spentRecord : UTXO :=
  { TxId := "T1", Vout := 0, Address := "Addr1", Coin := "MEER",
    Amount := 100000000, Spent := "T2", Lock := 0 }

/-- The record of Scenario A, unspent. -/
def freshRecord : UTXO :=
  { TxId := "T1", Vout := 0, Address := "Addr1", Coin := "MEER",
    Amount := 100000000, Spent := "", Lock := 0 }

/-- The request of Scenario A as an `updateUTXO` form. -/
def fullForm : List (String × String) :=
  [("txid", "T1"), ("vout", "0"), ("amount", "100000000"), ("coin", "MEER"), ("lock", "0"),
   ("address", "Addr1")]

/-- The same request without its `lock` field. -/
def formWithoutLock : List (String × String) :=
  [("txid", "T1"), ("vout", "0"), ("amount", "100000000"), ("coin", "MEER"),
   ("address", "Addr1")]

/-! ## Facts about the library routines -/

theorem bytesOf_eq_nil_iff (s : String) : bytesOf s = [] ↔ s = "" := by
  obtain ⟨cs⟩ := s
  unfold bytesOf String.toUTF8
  simp only [List.map_eq_nil_iff]
  constructor
  · intro h
    cases cs with
    | nil => rfl
    | cons c cs =>
      exfalso
      have hl := congrArg List.length h
      have hp := Char.utf8Size_pos c
      simp at hl
      omega
  · intro h
    have : cs = [] := by
      have := congrArg String.data h
      simpa using this
    subst this
    rfl

theorem len_eq_zero_iff (s : String) : len s = 0 ↔ s = "" := by
  unfold len
  rw [List.length_eq_zero, bytesOf_eq_nil_iff]

theorem decimalValue_foldl_ge (bs : List Nat) (n : Nat) :
    n ≤ bs.foldl (fun n c => n * 10 + (c - 48)) n := by
  induction bs generalizing n with
  | nil => simp
  | cons c cs ih =>
    simp only [List.foldl_cons]
    have := ih (n * 10 + (c - 48))
    omega

theorem parseUintLoop_ok_iff (bs : List Nat) (n v : Nat) (hn : n < 2 ^ 64) :
    parseUintLoop bs n = .ok v ↔
      (∀ c ∈ bs, 48 ≤ c ∧ c ≤ 57) ∧
        bs.foldl (fun n c => n * 10 + (c - 48)) n < 2 ^ 64 ∧
        v = bs.foldl (fun n c => n * 10 + (c - 48)) n := by
  induction bs generalizing n with
  | nil =>
    simp only [parseUintLoop, List.foldl_nil, List.not_mem_nil, false_implies, implies_true,
      true_and, Except.ok.injEq]
    constructor
    · intro h; exact ⟨hn, h.symm⟩
    · intro h; exact h.2.symm
  | cons c cs ih =>
    have hge := decimalValue_foldl_ge cs (n * 10 + (c - 48))
    norm_num [maxUint64] at hn ⊢
    unfold parseUintLoop
    by_cases hc : 48 ≤ c ∧ c ≤ 57
    · rw [if_pos hc]
      by_cases hcut : n ≥ maxUint64 / 10 + 1
      · rw [if_pos hcut]
        norm_num [maxUint64] at hcut
        constructor
        · intro h; cases h
        · intro h; omega
      · rw [if_neg hcut]
        norm_num [maxUint64] at hcut
        have h10 : n * 10 % 18446744073709551616 = n * 10 := Nat.mod_eq_of_lt (by omega)
        simp only []
        norm_num [maxUint64]
        rw [h10]
        by_cases hov : n * 10 + (c - 48) < 18446744073709551616
        · have h1 : (n * 10 + (c - 48)) % 18446744073709551616 = n * 10 + (c - 48) :=
            Nat.mod_eq_of_lt hov
          rw [h1, if_neg (by omega)]
          have := ih (n * 10 + (c - 48)) (by norm_num; exact hov)
          norm_num at this
          rw [this]
          constructor
          · rintro ⟨a, b, d⟩; exact ⟨⟨hc, a⟩, b, d⟩
          · rintro ⟨⟨_, a⟩, b, d⟩; exact ⟨a, b, d⟩
        · rw [if_pos (by omega)]
          constructor
          · intro h; cases h
          · intro h; omega
    · rw [if_neg hc]
      constructor
      · intro h; cases h
      · rintro ⟨⟨h, _⟩, _⟩; exact absurd h hc

theorem ParseUint_ok_iff (s : String) (v : Nat) :
    ParseUint s = .ok v ↔ IsUint64Decimal s ∧ v = decimalValue (bytesOf s) := by
  unfold ParseUint IsUint64Decimal decimalValue
  by_cases hs : s = ""
  · rw [if_pos hs]
    have := (bytesOf_eq_nil_iff s).2 hs
    constructor
    · intro h; cases h
    · rintro ⟨⟨h, _⟩, _⟩; exact absurd this h
  · rw [if_neg hs, parseUintLoop_ok_iff _ _ _ (by norm_num)]
    have : bytesOf s ≠ [] := fun h => hs ((bytesOf_eq_nil_iff s).1 h)
    constructor
    · rintro ⟨a, b, c⟩; exact ⟨⟨this, a, b⟩, c⟩
    · rintro ⟨⟨_, a, b⟩, c⟩; exact ⟨a, b, c⟩

theorem ParseUint_error_iff (s : String) :
    (∃ e, ParseUint s = .error e) ↔ ¬ IsUint64Decimal s := by
  constructor
  · rintro ⟨e, he⟩ h
    have := (ParseUint_ok_iff s _).2 ⟨h, rfl⟩
    rw [he] at this; cases this
  · intro h
    cases hp : ParseUint s with
    | error e => exact ⟨e, rfl⟩
    | ok v => exact absurd ((ParseUint_ok_iff s v).1 hp).1 h

theorem reverseHexTable_gt_iff (c : Nat) : reverseHexTable c > 15 ↔ isHexDigit c = false := by
  unfold reverseHexTable isHexDigit
  by_cases h1 : 48 ≤ c ∧ c ≤ 57
  · rw [if_pos h1]
    obtain ⟨a, b⟩ := h1
    simp [a, b]; omega
  · rw [if_neg h1]
    by_cases h2 : 97 ≤ c ∧ c ≤ 102
    · rw [if_pos h2]
      obtain ⟨a, b⟩ := h2
      simp [a, b]
    · rw [if_neg h2]
      by_cases h3 : 65 ≤ c ∧ c ≤ 70
      · rw [if_pos h3]
        obtain ⟨a, b⟩ := h3
        simp [a, b]
      · rw [if_neg h3]
        simp only [Bool.or_eq_false_iff, Bool.and_eq_false_iff, decide_eq_false_iff_not]
        omega

theorem hexDecode_ok_iff (bs : List Nat) :
    (∃ out, hexDecode bs = .ok out) ↔
      bs.length % 2 = 0 ∧ ∀ c ∈ bs, isHexDigit c = true := by
  induction bs using hexDecode.induct with
  | case1 => simp [hexDecode]
  | case2 p hp =>
    simp [hexDecode, hp]
  | case3 p hp =>
    simp [hexDecode, hp]
  | case4 p q rest hp =>
    have := (reverseHexTable_gt_iff p).1 hp
    simp [hexDecode, hp, this]
  | case5 p q rest hp hq =>
    have := (reverseHexTable_gt_iff q).1 hq
    simp [hexDecode, hp, hq, this]
  | case6 p q rest hp hq bs hrest ih =>
    have h1 : isHexDigit p = true := by
      cases h : isHexDigit p
      · exact absurd ((reverseHexTable_gt_iff p).2 h) hp
      · rfl
    have h2 : isHexDigit q = true := by
      cases h : isHexDigit q
      · exact absurd ((reverseHexTable_gt_iff q).2 h) hq
      · rfl
    have ih1 := ih.1 ⟨bs, hrest⟩
    have hl := ih1.1
    simp [hexDecode, hp, hq, hrest, h1, h2, ih1.2]
    exact ⟨by omega, ih1.2⟩
  | case7 p q rest hp hq e hrest ih =>
    have h1 : isHexDigit p = true := by
      cases h : isHexDigit p
      · exact absurd ((reverseHexTable_gt_iff p).2 h) hp
      · rfl
    have h2 : isHexDigit q = true := by
      cases h : isHexDigit q
      · exact absurd ((reverseHexTable_gt_iff q).2 h) hq
      · rfl
    have ih1 : ¬ (rest.length % 2 = 0 ∧ ∀ c ∈ rest, isHexDigit c = true) := by
      intro h
      obtain ⟨out, ho⟩ := ih.2 h
      rw [hrest] at ho; cases ho
    simp [hexDecode, hp, hq, hrest, h1, h2]
    intro hl
    by_contra hall
    apply ih1
    refine ⟨by omega, ?_⟩
    intro c hc
    by_contra hcc
    exact hall ⟨c, hc, by simpa using hcc⟩

/-! ## Decoding (`TxDecode`) -/

/-- A raw string of odd length is rejected before any decoding. -/
theorem TxDecode_odd (lib : Codec) (raw : String) (h : len raw % 2 = 1) :
    TxDecode lib raw = .error ("invaild raw transaction : " ++ raw) := by
  unfold TxDecode
  rw [if_pos (by omega)]

/-- Claim C3: `TxDecode` fails on a string of odd length, fails on a string of even
length that is not valid hexadecimal, and fails when deserialization of the decoded
bytes fails; hex decoding succeeds exactly on the strings of even length made of
hexadecimal digits; and `TxDecode` returns a transaction exactly when the length is
even, hex decoding succeeds and deserialization of the decoded bytes succeeds, the
result being that deserialized transaction. -/
theorem TxDecode_contract (lib : Codec) (raw : String) :
    (len raw % 2 = 1 → ∃ e, TxDecode lib raw = .error e) ∧
    (len raw % 2 = 0 → ¬ IsHex raw → ∃ e, TxDecode lib raw = .error e) ∧
    (∀ bs e, hexDecodeString raw = .ok bs → lib.Deserialize bs = .error e →
      TxDecode lib raw = .error e) ∧
    ((∃ bs, hexDecodeString raw = .ok bs) ↔ len raw % 2 = 0 ∧ IsHex raw) ∧
    (∀ tx, TxDecode lib raw = .ok tx ↔
      len raw % 2 = 0 ∧ ∃ bs, hexDecodeString raw = .ok bs ∧ lib.Deserialize bs = .ok tx) := by
  have hhex : (∃ bs, hexDecodeString raw = .ok bs) ↔ len raw % 2 = 0 ∧ IsHex raw := by
    unfold hexDecodeString len IsHex
    exact hexDecode_ok_iff (bytesOf raw)
  refine ⟨?_, ?_, ?_, hhex, ?_⟩
  · intro h
    refine ⟨"invaild raw transaction : " ++ raw, ?_⟩
    unfold TxDecode
    rw [if_pos (by omega)]
  · intro h hn
    unfold TxDecode
    rw [if_neg (by omega)]
    cases hd : hexDecodeString raw with
    | error e => exact ⟨e, rfl⟩
    | ok bs => exact absurd (hhex.1 ⟨bs, hd⟩).2 hn
  · intro bs e hd hs
    have hl := (hhex.1 ⟨bs, hd⟩).1
    unfold TxDecode
    rw [if_neg (by omega)]
    simp only [hd, hs]
  · intro tx
    unfold TxDecode
    by_cases hl : len raw % 2 = 0
    · rw [if_neg (by omega)]
      cases hd : hexDecodeString raw with
      | error e => simp [hl]
      | ok bs =>
        cases hs : lib.Deserialize bs with
        | error e => simp [hl, hs]
        | ok t => simp [hl, hs]
    · rw [if_pos (by omega)]
      simp [hl]

/-- Claim C3 at the raw string `"00"`: it decodes to the transaction the codec reads. -/
theorem TxDecode_contract_witness :
    TxDecode sampleCodec "00" =
      .ok { TxIn := [{ PreviousOut := { Hash := ⟨"T1"⟩, OutIndex := 0 } }] } :=
  ((TxDecode_contract sampleCodec "00").2.2.2.2 _).2 ⟨by decide, [0], by decide, by decide⟩

/-! ## Failure paths of the reconciliation handlers -/

/-- Claim C2: when `TxDecode` fails on the raw string of the request, in particular when
the string has odd length, `sendTransactionV2` returns an error and leaves the world as
it was: the store is unchanged and no call was made, neither `SendTx` nor a store read
or write. -/
theorem sendTransactionV2_decode_failure {σ : Type} (lib : Codec) (a : Api σ) (ct : Context)
    (w : World σ) (raw : String) (hraw : ct.Form "raw" = some raw)
    (hfail : (∃ e, TxDecode lib raw = .error e) ∨ len raw % 2 = 1) :
    (∃ e, (sendTransactionV2 lib a ct w).1 = .error e) ∧
      (sendTransactionV2 lib a ct w).2 = w := by
  have hdec : ∃ e, TxDecode lib raw = .error e := by
    rcases hfail with h | h
    · exact h
    · exact ⟨_, TxDecode_odd lib raw h⟩
  obtain ⟨e, he⟩ := hdec
  simp [sendTransactionV2, hraw, he]

/-- Claim C2 at the odd-length raw string `"abc"` (Scenario D). -/
theorem sendTransactionV2_decode_failure_witness :
    (∃ e, (sendTransactionV2 sampleCodec ⟨memDB, acceptingGateway "T2"⟩
        (formOf [("raw", "abc")]) ⟨⟨[freshRecord], []⟩, []⟩).1 = .error e) ∧
      (sendTransactionV2 sampleCodec ⟨memDB, acceptingGateway "T2"⟩
        (formOf [("raw", "abc")]) ⟨⟨[freshRecord], []⟩, []⟩).2 = ⟨⟨[freshRecord], []⟩, []⟩ :=
  sendTransactionV2_decode_failure sampleCodec ⟨memDB, acceptingGateway "T2"⟩
    (formOf [("raw", "abc")]) ⟨⟨[freshRecord], []⟩, []⟩ "abc" (by decide) (Or.inr (by decide))

/-- Claim C1: when `SendTx` answers the raw transaction of the request with an error,
`sendTransaction` and `sendTransactionV2` both return an error, leave the store as it
was, and the calls they added to the log contain no store call, so neither
`UpdateAddressUTXO` nor `InsertSpentUTXO`. -/
theorem broadcast_error_no_mutation {σ : Type} (lib : Codec) (a : Api σ) (ct : Context)
    (w : World σ)
    (hgw : ∀ raw, ct.Form "raw" = some raw → ∃ e, a.synchronizer.SendTx raw = .error e) :
    ((∃ e, (sendTransaction lib a ct w).1 = some (.error e)) ∧
      (sendTransaction lib a ct w).2.store = w.store ∧
      ∃ cs, (sendTransaction lib a ct w).2.calls = w.calls ++ cs ∧
        ∀ c ∈ cs, c.isStore = false) ∧
    ((∃ e, (sendTransactionV2 lib a ct w).1 = .error e) ∧
      (sendTransactionV2 lib a ct w).2.store = w.store ∧
      ∃ cs, (sendTransactionV2 lib a ct w).2.calls = w.calls ++ cs ∧
        ∀ c ∈ cs, c.isStore = false) := by
  constructor
  · cases hraw : ct.Form "raw" with
    | none => simp [sendTransaction, hraw]
    | some raw =>
      obtain ⟨e, he⟩ := hgw raw hraw
      cases hsp : ct.Form "spent" with
      | none => simp [sendTransaction, hraw, hsp]
      | some utxos =>
        cases hu : lib.Unmarshal utxos with
        | error err => simp [sendTransaction, hraw, hsp, hu]
        | ok utxoList =>
          simp only [sendTransaction, hraw, hsp, hu, he, World.log]
          exact ⟨⟨_, rfl⟩, trivial, [.SendTx raw], rfl, by simp [Call.isStore]⟩
  · cases hraw : ct.Form "raw" with
    | none => simp [sendTransactionV2, hraw]
    | some raw =>
      obtain ⟨e, he⟩ := hgw raw hraw
      cases hd : TxDecode lib raw with
      | error err => simp [sendTransactionV2, hraw, hd]
      | ok tx =>
        simp only [sendTransactionV2, hraw, hd, he, World.log]
        exact ⟨⟨_, rfl⟩, trivial, [.SendTx raw], rfl, by simp [Call.isStore]⟩

/-- Claim C1 with a gateway that rejects every transaction. -/
theorem broadcast_error_no_mutation_witness :
    ((∃ e, (sendTransaction sampleCodec ⟨memDB, rejectingGateway⟩
        (formOf [("raw", "00"), ("spent", "[]")]) ⟨⟨[freshRecord], []⟩, []⟩).1 =
          some (.error e)) ∧
      (sendTransaction sampleCodec ⟨memDB, rejectingGateway⟩
        (formOf [("raw", "00"), ("spent", "[]")]) ⟨⟨[freshRecord], []⟩, []⟩).2.store =
          ⟨[freshRecord], []⟩) ∧
    ((∃ e, (sendTransactionV2 sampleCodec ⟨memDB, rejectingGateway⟩
        (formOf [("raw", "00"), ("spent", "[]")]) ⟨⟨[freshRecord], []⟩, []⟩).1 = .error e) ∧
      (sendTransactionV2 sampleCodec ⟨memDB, rejectingGateway⟩
        (formOf [("raw", "00"), ("spent", "[]")]) ⟨⟨[freshRecord], []⟩, []⟩).2.store =
          ⟨[freshRecord], []⟩) :=
  have h := broadcast_error_no_mutation sampleCodec ⟨memDB, rejectingGateway⟩
    (formOf [("raw", "00"), ("spent", "[]")]) ⟨⟨[freshRecord], []⟩, []⟩
    (fun _ _ => ⟨"rejected", rfl⟩)
  ⟨⟨h.1.1, h.1.2.1⟩, ⟨h.2.1, h.2.2.1⟩⟩

/-! ## The explicit-list flow (`sendTransaction`) -/

/-- The assignment `utxo.Spent = txId` yields the UTXO spent by `txId`. -/
theorem spentBy_eq (txId : String) (u : UTXO) :
    ({ u with Spent := txId } : UTXO) = u.spentBy txId := rfl

/-- The loop over a supplied list without nil pointer: it completes, leaves every UTXO
spent by `txId`, logs one upsert per UTXO in order and reaches the fold of those
writes. -/
theorem markSupplied_complete {σ : Type} (a : Api σ) (txId : String) (l : List UTXO)
    (w : World σ) :
    markSupplied a txId (l.map some) w =
      ({ store := l.foldl
            (fun s u => (a.storage.UpdateAddressUTXO s u.Address (u.spentBy txId)).1) w.store
         calls := w.calls ++
            l.map (fun u => Call.UpdateAddressUTXO u.Address (u.spentBy txId)) },
       some (l.map (fun u => u.spentBy txId))) := by
  induction l generalizing w with
  | nil => simp [markSupplied]
  | cons u rest ih =>
    simp only [List.map_cons, markSupplied, spentBy_eq]
    rw [ih]
    simp [UTXO.spentBy]

/-- The loop over a supplied list with a nil pointer: it stops at the first one, having
logged one upsert for each UTXO before it. -/
theorem markSupplied_nil_pointer {σ : Type} (a : Api σ) (txId : String)
    (pre : List UTXO) (post : List (Option UTXO)) (w : World σ) :
    markSupplied a txId (pre.map some ++ none :: post) w =
      ({ store := pre.foldl
            (fun s u => (a.storage.UpdateAddressUTXO s u.Address (u.spentBy txId)).1) w.store
         calls := w.calls ++
            pre.map (fun u => Call.UpdateAddressUTXO u.Address (u.spentBy txId)) },
       none) := by
  induction pre generalizing w with
  | nil => simp [markSupplied]
  | cons u rest ih =>
    have h := ih { store := (a.storage.UpdateAddressUTXO w.store u.Address (u.spentBy txId)).1
                   calls := w.calls ++ [Call.UpdateAddressUTXO u.Address (u.spentBy txId)] }
    simp only [List.map_cons, List.cons_append, markSupplied, spentBy_eq]
    change ((markSupplied a txId (List.map some rest ++ none :: post) _).1,
      Option.map _ (markSupplied a txId (List.map some rest ++ none :: post) _).2) = _
    rw [h]
    simp [UTXO.spentBy]


/-- Claim C5, checked against the code. For a `sendTransaction` request whose `spent`
field parses and whose raw transaction the gateway accepts under `txId`: when the parsed
list holds no nil pointer the handler does what the claim says: it returns `txId`, calls
`UpdateAddressUTXO` once for every UTXO of the list, in list order, under that UTXO's
address and with the UTXO spent by `txId` (`Spent = txId`, every other field as
supplied), and then makes one `InsertSpentUTXO` call with `SpentTxId = txId` and the
whole list, every UTXO spent by `txId`. When the parsed list holds a nil pointer (a JSON
`null`) the handler panics there, after the broadcast: it returns nothing, has made the
upserts of the UTXOs before the nil pointer, and inserts no SpentUTXO record. -/
theorem sendTransaction_accepted {σ : Type} (lib : Codec) (a : Api σ) (ct : Context)
    (w : World σ) (raw utxos txId : String) (ptrs : List (Option UTXO))
    (hraw : ct.Form "raw" = some raw) (hspent : ct.Form "spent" = some utxos)
    (hparse : lib.Unmarshal utxos = .ok ptrs)
    (hsend : a.synchronizer.SendTx raw = .ok txId) :
    (∀ utxoList : List UTXO, ptrs = utxoList.map some →
      (sendTransaction lib a ct w).1 = some (.ok (.str txId)) ∧
      (sendTransaction lib a ct w).2.calls =
        w.calls ++ [Call.SendTx raw] ++
          utxoList.map (fun u => Call.UpdateAddressUTXO u.Address (u.spentBy txId)) ++
          [Call.InsertSpentUTXO
            { SpentTxId := txId, UTXOList := utxoList.map (fun u => u.spentBy txId) }] ∧
      (sendTransaction lib a ct w).2.store =
        (a.storage.InsertSpentUTXO
          (utxoList.foldl
            (fun s u => (a.storage.UpdateAddressUTXO s u.Address (u.spentBy txId)).1)
            w.store)
          { SpentTxId := txId, UTXOList := utxoList.map (fun u => u.spentBy txId) }).1) ∧
    (∀ (pre : List UTXO) (post : List (Option UTXO)), ptrs = pre.map some ++ none :: post →
      (sendTransaction lib a ct w).1 = none ∧
      (sendTransaction lib a ct w).2.calls =
        w.calls ++ [Call.SendTx raw] ++
          pre.map (fun u => Call.UpdateAddressUTXO u.Address (u.spentBy txId)) ∧
      (sendTransaction lib a ct w).2.store =
        pre.foldl (fun s u => (a.storage.UpdateAddressUTXO s u.Address (u.spentBy txId)).1)
          w.store) ∧
    (∀ u : UTXO, (u.spentBy txId).Spent = txId ∧ (u.spentBy txId).TxId = u.TxId ∧
      (u.spentBy txId).Vout = u.Vout ∧ (u.spentBy txId).Address = u.Address ∧
      (u.spentBy txId).Coin = u.Coin ∧ (u.spentBy txId).Amount = u.Amount ∧
      (u.spentBy txId).Lock = u.Lock) := by
  have hloop : ∀ (l : List UTXO) (w0 : World σ),
      markSupplied a txId (l.map some) w0 =
        ({ store := l.foldl
              (fun s u => (a.storage.UpdateAddressUTXO s u.Address (u.spentBy txId)).1)
              w0.store
           calls := w0.calls ++
              l.map (fun u => Call.UpdateAddressUTXO u.Address (u.spentBy txId)) },
         some (l.map (fun u => u.spentBy txId))) := by
    intro l
    induction l with
    | nil => intro w0; simp [markSupplied]
    | cons u rest ih =>
      intro w0
      have hS : ({ u with Spent := txId } : UTXO) = u.spentBy txId := rfl
      simp only [List.map_cons, markSupplied, hS]
      rw [ih]
      simp [UTXO.spentBy]
  have hstop : ∀ (pre : List UTXO) (post : List (Option UTXO)) (w0 : World σ),
      markSupplied a txId (pre.map some ++ none :: post) w0 =
        ({ store := pre.foldl
              (fun s u => (a.storage.UpdateAddressUTXO s u.Address (u.spentBy txId)).1)
              w0.store
           calls := w0.calls ++
              pre.map (fun u => Call.UpdateAddressUTXO u.Address (u.spentBy txId)) },
         none) := by
    intro pre post
    induction pre with
    | nil => intro w0; simp [markSupplied]
    | cons u rest ih =>
      intro w0
      have hS : ({ u with Spent := txId } : UTXO) = u.spentBy txId := rfl
      have h := ih
        { store := (a.storage.UpdateAddressUTXO w0.store u.Address (u.spentBy txId)).1
          calls := w0.calls ++ [Call.UpdateAddressUTXO u.Address (u.spentBy txId)] }
      simp only [List.map_cons, List.cons_append, markSupplied, hS]
      change ((markSupplied a txId (List.map some rest ++ none :: post) _).1,
        Option.map _ (markSupplied a txId (List.map some rest ++ none :: post) _).2) = _
      rw [h]
      simp [UTXO.spentBy]
  refine ⟨?_, ?_, fun u => ⟨rfl, rfl, rfl, rfl, rfl, rfl, rfl⟩⟩
  · intro utxoList hl
    subst hl
    have h := hloop utxoList { store := w.store, calls := w.calls ++ [Call.SendTx raw] }
    simp [sendTransaction, hraw, hspent, hparse, hsend, World.log, h]
  · intro pre post hl
    subst hl
    have h := hstop pre post { store := w.store, calls := w.calls ++ [Call.SendTx raw] }
    simp [sendTransaction, hraw, hspent, hparse, hsend, World.log, h]

/-- Claim C5 at the text `[null]`, the gateway accepting under `T2`: the handler has
broadcast, returns nothing and has written nothing; and at a list of one UTXO, where it
returns `T2`, marks the record and groups it under `T2`. -/
theorem sendTransaction_accepted_witness :
    sendTransaction sampleCodec ⟨memDB, acceptingGateway "T2"⟩
        (formOf [("raw", "00"), ("spent", "[null]")]) ⟨⟨[freshRecord], []⟩, []⟩ =
      (none, ⟨⟨[freshRecord], []⟩, [.SendTx "00"]⟩) ∧
    sendTransaction sampleCodec ⟨memDB, acceptingGateway "T2"⟩
        (formOf [("raw", "00"), ("spent", "[]")]) ⟨⟨[freshRecord], []⟩, []⟩ =
      (some (.ok (.str "T2")),
        ⟨⟨[spentRecord], [⟨"T2", [spentRecord]⟩]⟩,
          [.SendTx "00", .UpdateAddressUTXO "Addr1" spentRecord,
           .InsertSpentUTXO ⟨"T2", [spentRecord]⟩]⟩) :=
  have h1 := (sendTransaction_accepted sampleCodec ⟨memDB, acceptingGateway "T2"⟩
    (formOf [("raw", "00"), ("spent", "[null]")]) ⟨⟨[freshRecord], []⟩, []⟩ "00" "[null]"
    "T2" [none] (by decide) (by decide) (by decide) (by decide)).2.1 [] [] (by decide)
  have h2 := (sendTransaction_accepted sampleCodec ⟨memDB, acceptingGateway "T2"⟩
    (formOf [("raw", "00"), ("spent", "[]")]) ⟨⟨[freshRecord], []⟩, []⟩ "00" "[]"
    "T2" [some freshRecord] (by decide) (by decide) (by decide) (by decide)).1
    [freshRecord] (by decide)
  ⟨Prod.ext h1.1 (by decide), Prod.ext h2.1 (by decide)⟩

/-! ## Store errors during reconciliation -/

/-- Claim C7 fails: on a store whose writes all report a failure, with a gateway that
accepts under `T2`, both handlers make their writes, each of which fails, and still
return `T2` as success. -/
theorem store_error_reported_as_success :
    (failingDB.UpdateAddressUTXO () "Addr1" spentRecord).2 = some "write failed" ∧
    (failingDB.InsertSpentUTXO () ⟨"T2", [spentRecord]⟩).2 = some "write failed" ∧
    sendTransaction sampleCodec ⟨failingDB, acceptingGateway "T2"⟩
        (formOf [("raw", "00"), ("spent", "[]")]) ⟨(), []⟩ =
      (some (.ok (.str "T2")),
        ⟨(), [.SendTx "00", .UpdateAddressUTXO "Addr1" spentRecord,
              .InsertSpentUTXO ⟨"T2", [spentRecord]⟩]⟩) ∧
    sendTransactionV2 sampleCodec ⟨failingDB, acceptingGateway "T2"⟩
        (formOf [("raw", "00")]) ⟨(), []⟩ =
      (.ok (.str "T2"),
        ⟨(), [.SendTx "00", .GetUTXO "T1" 0, .UpdateAddressUTXO "Addr1" spentRecord,
              .InsertSpentUTXO ⟨"T2", [spentRecord]⟩]⟩) := by
  refine ⟨rfl, rfl, ?_, ?_⟩ <;> decide

/-- Claim C7 as amended: once the gateway has accepted the raw transaction under `txId`,
`sendTransaction` (on a `spent` field that parses to a list without nil pointer) and
`sendTransactionV2` (on a raw string that decodes) return `txId` as success on every
store, whatever its writes report: the errors of `UpdateAddressUTXO` and
`InsertSpentUTXO` are discarded. -/
theorem accepted_broadcast_reports_txId {σ : Type} (lib : Codec) (a : Api σ) (ct : Context)
    (w : World σ) (raw txId : String) (hraw : ct.Form "raw" = some raw)
    (hsend : a.synchronizer.SendTx raw = .ok txId) :
    (∀ utxos (utxoList : List UTXO), ct.Form "spent" = some utxos →
      lib.Unmarshal utxos = .ok (utxoList.map some) →
      (sendTransaction lib a ct w).1 = some (.ok (.str txId))) ∧
    (∀ tx, TxDecode lib raw = .ok tx →
      (sendTransactionV2 lib a ct w).1 = .ok (.str txId)) := by
  constructor
  · intro utxos utxoList hspent hparse
    have hloop : ∀ (l : List UTXO) (w0 : World σ),
        ∃ marked, (markSupplied a txId (l.map some) w0).2 = some marked := by
      intro l
      induction l with
      | nil => intro w0; exact ⟨[], rfl⟩
      | cons u rest ih =>
        intro w0
        obtain ⟨m, hm⟩ := ih
          { store := (a.storage.UpdateAddressUTXO w0.store u.Address
              { u with Spent := txId }).1
            calls := w0.calls ++ [Call.UpdateAddressUTXO u.Address { u with Spent := txId }] }
        refine ⟨{ u with Spent := txId } :: m, ?_⟩
        simp only [List.map_cons, markSupplied]
        rw [hm]
        rfl
    obtain ⟨m, hm⟩ := hloop utxoList { store := w.store, calls := w.calls ++ [Call.SendTx raw] }
    simp only [sendTransaction, hraw, hspent, hparse, hsend, World.log, hm]
  · intro tx hdec
    simp only [sendTransactionV2, hraw, hdec, hsend]

/-- Claim C7 as amended, on the store whose writes all fail. -/
theorem accepted_broadcast_reports_txId_witness :
    (sendTransaction (σ := Unit) sampleCodec ⟨failingDB, acceptingGateway "T2"⟩
        (formOf [("raw", "00"), ("spent", "[]")]) ⟨(), []⟩).1 = some (.ok (.str "T2")) ∧
    (sendTransactionV2 (σ := Unit) sampleCodec ⟨failingDB, acceptingGateway "T2"⟩
        (formOf [("raw", "00"), ("spent", "[]")]) ⟨(), []⟩).1 = .ok (.str "T2") :=
  have h := accepted_broadcast_reports_txId (σ := Unit) sampleCodec
    ⟨failingDB, acceptingGateway "T2"⟩ (formOf [("raw", "00"), ("spent", "[]")]) ⟨(), []⟩
    "00" "T2" (by decide) (by decide)
  ⟨h.1 "[]" [freshRecord] (by decide) (by decide),
    h.2 { TxIn := [{ PreviousOut := { Hash := ⟨"T1"⟩, OutIndex := 0 } }] } (by decide)⟩

/-! ## Validation in `updateUTXO` -/

/-- A field is present and not empty exactly when `len` of its value is not zero. -/
theorem Context.has_iff (ct : Context) (k : String) :
    ct.has k ↔ len (ct.formValue k) ≠ 0 := by
  unfold Context.has Context.formValue
  rw [Ne, len_eq_zero_iff]
  cases h : ct.Form k with
  | none => simp
  | some v => simp

/-- A missing field is not present. -/
theorem Context.not_has_of_none (ct : Context) (k : String) (h : ct.Form k = none) :
    ¬ ct.has k := by
  rintro ⟨v, hv, _⟩
  rw [h] at hv
  cases hv

/-- A base-10 unsigned integer is not the empty string. -/
theorem len_ne_zero_of_IsUint64Decimal (s : String) (h : IsUint64Decimal s) : len s ≠ 0 := by
  unfold len
  intro hl
  exact h.1 (List.length_eq_zero.1 hl)

/-- On a request that passes every check `updateUTXO` makes one store call, with the
parsed values, and reports what the store reports. -/
theorem updateUTXO_of_valid {σ : Type} (a : Api σ) (ct : Context) (w : World σ)
    (h : ValidUpdateRequest ct) :
    updateUTXO a ct w =
      ((match (a.storage.UpdateAddressUTXOMandatory w.store (ct.formValue "address")
            (requestedUTXO ct)).2 with
        | some err => .error ⟨.ERROR_UNKNOWN, err⟩
        | none => .ok (.bool true)),
       { store := (a.storage.UpdateAddressUTXOMandatory w.store (ct.formValue "address")
            (requestedUTXO ct)).1
         calls := w.calls ++
           [Call.UpdateAddressUTXOMandatory (ct.formValue "address") (requestedUTXO ct)] }) := by
  obtain ⟨h1, h2, h3, h4, _, h6, p1, p2, p3⟩ := h
  rw [Context.has_iff] at h1 h2 h3 h4 h6
  have q1 := (ParseUint_ok_iff _ _).2 ⟨p1, rfl⟩
  have q2 := (ParseUint_ok_iff _ _).2 ⟨p2, rfl⟩
  have q3 := (ParseUint_ok_iff _ _).2 ⟨p3, rfl⟩
  unfold updateUTXO
  simp only [h1, h2, h3, h4, h6, if_false, q1, q2, q3]
  unfold requestedUTXO
  cases (a.storage.UpdateAddressUTXOMandatory w.store (ct.formValue "address") _).2 <;> rfl

/-- On a request that fails a check `updateUTXO` returns an error and touches
nothing. -/
theorem updateUTXO_of_invalid {σ : Type} (a : Api σ) (ct : Context) (w : World σ)
    (h : ¬ ValidUpdateRequest ct) :
    (∃ e, (updateUTXO a ct w).1 = .error e) ∧ (updateUTXO a ct w).2 = w := by
  by_cases h1 : len (ct.formValue "txid") = 0
  · simp [updateUTXO, h1]
  by_cases h2 : len (ct.formValue "vout") = 0
  · simp [updateUTXO, h1, h2]
  by_cases h3 : len (ct.formValue "amount") = 0
  · simp [updateUTXO, h1, h2, h3]
  by_cases h4 : len (ct.formValue "coin") = 0
  · simp [updateUTXO, h1, h2, h3, h4]
  by_cases h6 : len (ct.formValue "address") = 0
  · simp [updateUTXO, h1, h2, h3, h4, h6]
  cases q1 : ParseUint (ct.formValue "vout") with
  | error e => simp [updateUTXO, h1, h2, h3, h4, h6, q1]
  | ok v1 =>
    cases q2 : ParseUint (ct.formValue "amount") with
    | error e => simp [updateUTXO, h1, h2, h3, h4, h6, q1, q2]
    | ok v2 =>
      cases q3 : ParseUint (ct.formValue "lock") with
      | error e => simp [updateUTXO, h1, h2, h3, h4, h6, q1, q2, q3]
      | ok v3 =>
        exfalso
        apply h
        have p1 := ((ParseUint_ok_iff _ _).1 q1).1
        have p2 := ((ParseUint_ok_iff _ _).1 q2).1
        have p3 := ((ParseUint_ok_iff _ _).1 q3).1
        refine ⟨?_, ?_, ?_, ?_, ?_, ?_, p1, p2, p3⟩ <;> rw [Context.has_iff]
        · exact h1
        · exact h2
        · exact h3
        · exact h4
        · exact len_ne_zero_of_IsUint64Decimal _ p3
        · exact h6

/-- Claim C9: when one of `txid`, `vout`, `amount`, `coin`, `lock`, `address` is missing
or empty, or one of `vout`, `amount`, `lock` is not a base-10 unsigned integer
representable in 64 bits, `updateUTXO` returns an error and leaves the world as it was,
so `UpdateAddressUTXOMandatory` is not called and the store is not mutated; when all
checks pass, the handler calls `UpdateAddressUTXOMandatory` exactly once, with the UTXO
whose fields are the parsed values, and returns `true` or the error of that call. -/
theorem updateUTXO_validation {σ : Type} (a : Api σ) (ct : Context) (w : World σ) :
    (¬ ValidUpdateRequest ct →
      (∃ e, (updateUTXO a ct w).1 = .error e) ∧ (updateUTXO a ct w).2 = w) ∧
    (ValidUpdateRequest ct →
      (updateUTXO a ct w).2 =
        { store := (a.storage.UpdateAddressUTXOMandatory w.store (ct.formValue "address")
            (requestedUTXO ct)).1
          calls := w.calls ++
            [Call.UpdateAddressUTXOMandatory (ct.formValue "address") (requestedUTXO ct)] } ∧
      (updateUTXO a ct w).1 =
        match (a.storage.UpdateAddressUTXOMandatory w.store (ct.formValue "address")
            (requestedUTXO ct)).2 with
        | some err => .error ⟨.ERROR_UNKNOWN, err⟩
        | none => .ok (.bool true)) := by
  constructor
  · exact updateUTXO_of_invalid a ct w
  · intro h
    rw [updateUTXO_of_valid a ct w h]
    exact ⟨rfl, rfl⟩


/-- Claim C9 at a request with a negative `vout` and no other numeric field, and at the
complete request of Scenario A. -/
theorem updateUTXO_validation_witness :
    ((updateUTXO ⟨memDB, rejectingGateway⟩ (formOf [("txid", "T1"), ("vout", "-1")])
        ⟨⟨[freshRecord], []⟩, []⟩).2 = ⟨⟨[freshRecord], []⟩, []⟩) ∧
    ((updateUTXO ⟨memDB, rejectingGateway⟩ (formOf fullForm) ⟨⟨[spentRecord], []⟩, []⟩).2 =
      ⟨⟨[freshRecord], []⟩, [.UpdateAddressUTXOMandatory "Addr1" freshRecord]⟩) :=
  ⟨((updateUTXO_validation ⟨memDB, rejectingGateway⟩ (formOf [("txid", "T1"), ("vout", "-1")])
        ⟨⟨[freshRecord], []⟩, []⟩).1
      (fun h => absurd h.2.2.1 (Context.not_has_of_none _ _ (by decide)))).2,
   (((updateUTXO_validation ⟨memDB, rejectingGateway⟩ (formOf fullForm)
        ⟨⟨[spentRecord], []⟩, []⟩).2
      ⟨⟨"T1", by decide, by decide⟩, ⟨"0", by decide, by decide⟩,
        ⟨"100000000", by decide, by decide⟩, ⟨"MEER", by decide, by decide⟩,
        ⟨"0", by decide, by decide⟩, ⟨"Addr1", by decide, by decide⟩,
        by decide, by decide, by decide⟩).1).trans (by decide)⟩

/-- Claim C10, checked against the code: for a request whose `txid`, `vout`, `amount`,
`coin` and `address` are present and not empty and whose `lock` is missing or empty,
`updateUTXO` answers "wrong vout" or "wrong amount", and never "lock is required": the
check after reading `lock` tests `amount`. -/
theorem updateUTXO_lock_missing {σ : Type} (a : Api σ) (ct : Context) (w : World σ)
    (htxid : ct.has "txid") (hvout : ct.has "vout") (hamount : ct.has "amount")
    (hcoin : ct.has "coin") (haddress : ct.has "address") (hlock : ¬ ct.has "lock") :
    ((updateUTXO a ct w).1 = .error ⟨.ERROR_UNKNOWN, "wrong vout"⟩ ∨
      (updateUTXO a ct w).1 = .error ⟨.ERROR_UNKNOWN, "wrong amount"⟩) ∧
    (updateUTXO a ct w).1 ≠ .error ⟨.ERROR_UNKNOWN, "lock is required"⟩ := by
  rw [Context.has_iff] at htxid hvout hamount hcoin haddress hlock
  have hl : ct.formValue "lock" = "" := by
    rw [← len_eq_zero_iff]; omega
  have q3 : ParseUint (ct.formValue "lock") = .error "invalid syntax" := by
    rw [hl]; rfl
  have key : (updateUTXO a ct w).1 = .error ⟨.ERROR_UNKNOWN, "wrong vout"⟩ ∨
      (updateUTXO a ct w).1 = .error ⟨.ERROR_UNKNOWN, "wrong amount"⟩ := by
    cases q1 : ParseUint (ct.formValue "vout") with
    | error e => left; simp [updateUTXO, htxid, hvout, hamount, hcoin, haddress, q1]
    | ok v1 =>
      right
      cases q2 : ParseUint (ct.formValue "amount") with
      | error e => simp [updateUTXO, htxid, hvout, hamount, hcoin, haddress, q1, q2]
      | ok v2 => simp [updateUTXO, htxid, hvout, hamount, hcoin, haddress, q1, q2, q3]
  refine ⟨key, ?_⟩
  rcases key with h | h <;> rw [h] <;> decide

/-- Claim C10 at the request of Scenario A without its `lock` field. -/
theorem updateUTXO_lock_missing_witness :
    (updateUTXO ⟨memDB, rejectingGateway⟩ (formOf formWithoutLock)
        ⟨⟨[freshRecord], []⟩, []⟩).1 ≠ .error ⟨.ERROR_UNKNOWN, "lock is required"⟩ :=
  (updateUTXO_lock_missing ⟨memDB, rejectingGateway⟩ (formOf formWithoutLock)
    ⟨⟨[freshRecord], []⟩, []⟩
    ⟨"T1", by decide, by decide⟩ ⟨"0", by decide, by decide⟩
    ⟨"100000000", by decide, by decide⟩ ⟨"MEER", by decide, by decide⟩
    ⟨"Addr1", by decide, by decide⟩
    (Context.not_has_of_none _ _ (by decide))).2

/-- The request of Scenario A without its `lock` field is answered "wrong amount", the
world left as it was. -/
theorem updateUTXO_lock_missing_eval :
    updateUTXO ⟨memDB, rejectingGateway⟩ (formOf formWithoutLock) ⟨⟨[freshRecord], []⟩, []⟩ =
      (.error ⟨.ERROR_UNKNOWN, "wrong amount"⟩, ⟨⟨[freshRecord], []⟩, []⟩) := by
  decide

/-! ## The decode-resolve flow (`sendTransactionV2`) -/


/-- The loop over the decoded inputs runs as the specification tells resolution: it
reaches the state, appends the resolved UTXOs and logs the calls of `Resolved`. -/
theorem resolveInputs_spec {σ : Type} (a : Api σ) (txId : String) (ins : List TxInput)
    (w : World σ) (acc : List UTXO) :
    ∃ s1 L cs, Resolved a.storage txId w.store ins s1 L cs ∧
      resolveInputs a txId ins w acc = ({ store := s1, calls := w.calls ++ cs }, acc ++ L) := by
  induction ins generalizing w acc with
  | nil => exact ⟨w.store, [], [], Resolved.done _, by simp [resolveInputs]⟩
  | cons vin rest ih =>
    cases hget : a.storage.GetUTXO w.store vin.key.1 vin.key.2 with
    | error e =>
      obtain ⟨s1, L, cs, hr, he⟩ := ih (w.log (.GetUTXO vin.key.1 vin.key.2)) acc
      refine ⟨s1, L, _, Resolved.miss _ _ _ _ _ _ e hget hr, ?_⟩
      have hget1 : a.storage.GetUTXO w.store vin.PreviousOut.Hash.String
          vin.PreviousOut.OutIndex = .error e := hget
      simp only [resolveInputs, hget1]
      rw [show w.log (Call.GetUTXO vin.PreviousOut.Hash.String vin.PreviousOut.OutIndex) =
        w.log (.GetUTXO vin.key.1 vin.key.2) from rfl, he]
      simp [World.log]
    | ok u =>
      obtain ⟨s1, L, cs, hr, he⟩ := ih
        { store := (a.storage.UpdateAddressUTXO w.store u.Address (u.spentBy txId)).1
          calls := w.calls ++ [.GetUTXO vin.key.1 vin.key.2] ++
            [.UpdateAddressUTXO u.Address (u.spentBy txId)] } (acc ++ [u.spentBy txId])
      refine ⟨s1, u.spentBy txId :: L, _, Resolved.hit _ _ _ _ _ _ u hget hr, ?_⟩
      have hget1 : a.storage.GetUTXO w.store vin.PreviousOut.Hash.String
          vin.PreviousOut.OutIndex = .ok u := hget
      have hS : ({ u with Spent := txId } : UTXO) = u.spentBy txId := rfl
      simp only [resolveInputs, hget1, World.log, hS]
      rw [show (Call.GetUTXO vin.PreviousOut.Hash.String vin.PreviousOut.OutIndex) =
        .GetUTXO vin.key.1 vin.key.2 from rfl, he]
      simp

/-- What every resolution has: its calls are store reads and upserts only, every
resolved UTXO carries `Spent = txId`, there are no more of them than inputs, and when no
input is found nothing is resolved, nothing written and the store is left as it was. -/
theorem Resolved.facts {σ : Type} {db : UTXODB σ} {txId : String} {s s1 : σ}
    {ins : List TxInput} {L : List UTXO} {cs : List Call}
    (h : Resolved db txId s ins s1 L cs) :
    (∀ c ∈ cs, c.inserted = none ∧ c.isSendTx = false) ∧ (∀ u ∈ L, u.Spent = txId) ∧
    L.length ≤ ins.length ∧
    ((∀ vin ∈ ins, ∃ e, db.GetUTXO s vin.key.1 vin.key.2 = .error e) →
      L = [] ∧ s1 = s ∧ ∀ c ∈ cs, c.isWrite = false) := by
  induction h with
  | done s => simp
  | miss s s1 vin rest L cs e hget hrest ih =>
    obtain ⟨h1, h2, h3, h4⟩ := ih
    refine ⟨?_, h2, ?_, ?_⟩
    · intro c hc
      rcases List.mem_cons.1 hc with rfl | hc
      · exact ⟨rfl, rfl⟩
      · exact h1 c hc
    · simp only [List.length_cons]; omega
    · intro hall
      obtain ⟨a1, a2, a3⟩ := h4 (fun v hv => hall v (List.mem_cons_of_mem _ hv))
      refine ⟨a1, a2, ?_⟩
      intro c hc
      rcases List.mem_cons.1 hc with rfl | hc
      · rfl
      · exact a3 c hc
  | hit s s1 vin rest L cs u hget hrest ih =>
    obtain ⟨h1, h2, h3, h4⟩ := ih
    refine ⟨?_, ?_, ?_, ?_⟩
    · intro c hc
      rcases List.mem_cons.1 hc with rfl | hc
      · exact ⟨rfl, rfl⟩
      rcases List.mem_cons.1 hc with rfl | hc
      · exact ⟨rfl, rfl⟩
      · exact h1 c hc
    · intro v hv
      rcases List.mem_cons.1 hv with rfl | hv
      · rfl
      · exact h2 v hv
    · simp only [List.length_cons]; omega
    · intro hall
      obtain ⟨e, he⟩ := hall vin (List.mem_cons_self _ _)
      rw [hget] at he
      cases he

/-- Claim C4: for a raw transaction that decodes to `tx` and that the gateway accepts
under `txId`, `sendTransactionV2` returns `txId` as success; after `SendTx` it resolves
the decoded inputs in order (`Resolved`: an input `GetUTXO` finds is upserted under its
own address as the found UTXO spent by `txId`, an input it does not find is skipped
without a write), and it then makes exactly one `InsertSpentUTXO` call, for the record
with `SpentTxId` equal to `txId` whose `UTXOList` is the resolved UTXOs in input order,
each the found UTXO spent by `txId`: `Spent = txId` and every other field as found;
when no input is found the list is empty and no UTXO is written. -/
theorem sendTransactionV2_accepted {σ : Type} (lib : Codec) (a : Api σ) (ct : Context)
    (w : World σ) (raw txId : String) (tx : Transaction)
    (hraw : ct.Form "raw" = some raw) (hdec : TxDecode lib raw = .ok tx)
    (hsend : a.synchronizer.SendTx raw = .ok txId) :
    (sendTransactionV2 lib a ct w).1 = .ok (.str txId) ∧
    (∃ s1 L cs, Resolved a.storage txId w.store tx.TxIn s1 L cs ∧
      (sendTransactionV2 lib a ct w).2.store =
        (a.storage.InsertSpentUTXO s1 { SpentTxId := txId, UTXOList := L }).1 ∧
      (sendTransactionV2 lib a ct w).2.calls =
        w.calls ++ [Call.SendTx raw] ++ cs ++
          [Call.InsertSpentUTXO { SpentTxId := txId, UTXOList := L }] ∧
      (∀ c ∈ cs, c.inserted = none ∧ c.isSendTx = false) ∧
      (∀ u ∈ L, u.Spent = txId) ∧
      L.length ≤ tx.TxIn.length ∧
      ((∀ vin ∈ tx.TxIn, ∃ e, a.storage.GetUTXO w.store vin.key.1 vin.key.2 = .error e) →
        L = [] ∧ s1 = w.store ∧ ∀ c ∈ cs, c.isWrite = false)) ∧
    (∀ u : UTXO, (u.spentBy txId).Spent = txId ∧ (u.spentBy txId).TxId = u.TxId ∧
      (u.spentBy txId).Vout = u.Vout ∧ (u.spentBy txId).Address = u.Address ∧
      (u.spentBy txId).Coin = u.Coin ∧ (u.spentBy txId).Amount = u.Amount ∧
      (u.spentBy txId).Lock = u.Lock) := by
  have hloop : ∀ (ins : List TxInput) (w0 : World σ) (acc : List UTXO),
      ∃ s1 L cs, Resolved a.storage txId w0.store ins s1 L cs ∧
        resolveInputs a txId ins w0 acc =
          ({ store := s1, calls := w0.calls ++ cs }, acc ++ L) := by
    intro ins
    induction ins with
    | nil => intro w0 acc; exact ⟨w0.store, [], [], Resolved.done _, by simp [resolveInputs]⟩
    | cons vin rest ih =>
      intro w0 acc
      cases hget : a.storage.GetUTXO w0.store vin.key.1 vin.key.2 with
      | error e =>
        obtain ⟨s1, L, cs, hr, he⟩ := ih (w0.log (.GetUTXO vin.key.1 vin.key.2)) acc
        refine ⟨s1, L, _, Resolved.miss _ _ _ _ _ _ e hget hr, ?_⟩
        have hget1 : a.storage.GetUTXO w0.store vin.PreviousOut.Hash.String
            vin.PreviousOut.OutIndex = .error e := hget
        simp only [resolveInputs, hget1]
        rw [show w0.log (Call.GetUTXO vin.PreviousOut.Hash.String vin.PreviousOut.OutIndex) =
          w0.log (.GetUTXO vin.key.1 vin.key.2) from rfl, he]
        simp [World.log]
      | ok u =>
        obtain ⟨s1, L, cs, hr, he⟩ := ih
          { store := (a.storage.UpdateAddressUTXO w0.store u.Address (u.spentBy txId)).1
            calls := w0.calls ++ [.GetUTXO vin.key.1 vin.key.2] ++
              [.UpdateAddressUTXO u.Address (u.spentBy txId)] } (acc ++ [u.spentBy txId])
        refine ⟨s1, u.spentBy txId :: L, _, Resolved.hit _ _ _ _ _ _ u hget hr, ?_⟩
        have hget1 : a.storage.GetUTXO w0.store vin.PreviousOut.Hash.String
            vin.PreviousOut.OutIndex = .ok u := hget
        have hS : ({ u with Spent := txId } : UTXO) = u.spentBy txId := rfl
        simp only [resolveInputs, hget1, World.log, hS]
        rw [show (Call.GetUTXO vin.PreviousOut.Hash.String vin.PreviousOut.OutIndex) =
          .GetUTXO vin.key.1 vin.key.2 from rfl, he]
        simp
  obtain ⟨s1, L, cs, hr, he⟩ := hloop tx.TxIn
    { store := w.store, calls := w.calls ++ [Call.SendTx raw] } []
  obtain ⟨f1, f2, f3, f4⟩ := hr.facts
  refine ⟨?_, ⟨s1, L, cs, hr, ?_, ?_, f1, f2, f3, f4⟩,
    fun u => ⟨rfl, rfl, rfl, rfl, rfl, rfl, rfl⟩⟩
  · simp only [sendTransactionV2, hraw, hdec, hsend]
  · simp only [sendTransactionV2, hraw, hdec, hsend, World.log, he]
    simp
  · simp only [sendTransactionV2, hraw, hdec, hsend, World.log, he]
    simp

/-- Claim C4 on the in-memory store: with the unspent record stored (Scenario C) the
record is marked and grouped under `T2`, its other fields untouched; with nothing stored
(Scenario E) the call succeeds, no UTXO is written and the audit record has an empty
list. -/
theorem sendTransactionV2_accepted_witness :
    (sendTransactionV2 sampleCodec ⟨memDB, acceptingGateway "T2"⟩ (formOf [("raw", "00")])
        ⟨⟨[freshRecord], []⟩, []⟩).1 = .ok (.str "T2") ∧
    (sendTransactionV2 sampleCodec ⟨memDB, acceptingGateway "T2"⟩ (formOf [("raw", "00")])
        ⟨⟨[freshRecord], []⟩, []⟩).2 =
      ⟨⟨[spentRecord], [⟨"T2", [spentRecord]⟩]⟩,
        [.SendTx "00", .GetUTXO "T1" 0, .UpdateAddressUTXO "Addr1" spentRecord,
         .InsertSpentUTXO ⟨"T2", [spentRecord]⟩]⟩ ∧
    sendTransactionV2 sampleCodec ⟨memDB, acceptingGateway "T2"⟩ (formOf [("raw", "00")])
        ⟨⟨[], []⟩, []⟩ =
      (.ok (.str "T2"),
        ⟨⟨[], [⟨"T2", []⟩]⟩, [.SendTx "00", .GetUTXO "T1" 0, .InsertSpentUTXO ⟨"T2", []⟩]⟩) :=
  ⟨(sendTransactionV2_accepted sampleCodec ⟨memDB, acceptingGateway "T2"⟩
      (formOf [("raw", "00")]) ⟨⟨[freshRecord], []⟩, []⟩ "00" "T2"
      { TxIn := [{ PreviousOut := { Hash := ⟨"T1"⟩, OutIndex := 0 } }] }
      (by decide) (by decide) (by decide)).1, by decide, by decide⟩

/-! ## The in-memory store: lookups after writes -/

/-- A record found under a pair has that pair as its identity. -/
theorem MemStore.find_key {s : MemStore} {k : String × Nat} {u : UTXO}
    (h : s.find k = some u) : (u.TxId, u.Vout) = k := by
  unfold MemStore.find at h
  have := List.find?_some h
  simp only [decide_eq_true_eq] at this
  exact Prod.ext this.1 this.2

/-- Lookup after an upsert: the upserted record under its own identity, the earlier
answer under any other. -/
theorem MemStore.find_upsert (l : List UTXO) (sp sp1 : List SpentUTXO) (u : UTXO)
    (k : String × Nat) :
    MemStore.find ⟨upsert u l, sp⟩ k =
      if (u.TxId, u.Vout) = k then some u else MemStore.find ⟨l, sp1⟩ k := by
  unfold MemStore.find
  obtain ⟨k1, k2⟩ := k
  simp only [Prod.mk.injEq]
  induction l with
  | nil =>
    simp only [upsert, List.find?_cons, List.find?_nil]
    by_cases h : u.TxId = k1 ∧ u.Vout = k2
    · simp [h]
    · simp [h]
  | cons v vs ih =>
    unfold upsert
    by_cases hv : v.TxId = u.TxId ∧ v.Vout = u.Vout
    · rw [if_pos hv]
      simp only [List.find?_cons]
      by_cases h : u.TxId = k1 ∧ u.Vout = k2
      · simp [h]
      · have : ¬ (v.TxId = k1 ∧ v.Vout = k2) := by rw [hv.1, hv.2]; exact h
        simp [h, this]
    · rw [if_neg hv]
      simp only [List.find?_cons]
      by_cases hk : v.TxId = k1 ∧ v.Vout = k2
      · have : ¬ (u.TxId = k1 ∧ u.Vout = k2) := by
          rintro ⟨a, b⟩; exact hv ⟨hk.1.trans a.symm, hk.2.trans b.symm⟩
        simp [hk, this]
      · simp only [hk, decide_False]
        exact ih

/-- Upserting the record that is already found under its identity changes nothing. -/
theorem upsert_self (l : List UTXO) (u : UTXO)
    (h : l.find? (fun v => decide (v.TxId = u.TxId ∧ v.Vout = u.Vout)) = some u) :
    upsert u l = l := by
  induction l with
  | nil => simp at h
  | cons v vs ih =>
    unfold upsert
    by_cases hv : v.TxId = u.TxId ∧ v.Vout = u.Vout
    · rw [if_pos hv]
      simp only [List.find?_cons, hv, and_self, decide_True, Option.some.injEq] at h
      rw [h]
    · rw [if_neg hv]
      simp only [List.find?_cons, hv, decide_False] at h
      rw [ih h]

/-- Setting `Spent` twice to the same id is setting it once. -/
theorem spentBy_spentBy (t : String) (u : UTXO) :
    (u.spentBy t).spentBy t = u.spentBy t := rfl

/-- Setting `Spent` to the id it already holds changes nothing. -/
theorem spentBy_of_Spent {t : String} {u : UTXO} (h : u.Spent = t) : u.spentBy t = u := by
  cases u; simp only [UTXO.spentBy] at *; simp [h]

/-- On the in-memory store, resolution sets `Spent` on the records the inputs name and
leaves the others; the resolved list is read off the store before the call. -/
theorem Resolved.mem {t : String} {s s1 : MemStore} {ins : List TxInput} {L : List UTXO}
    {cs : List Call} (h : Resolved memDB t s ins s1 L cs) :
    (∀ k, s1.find k =
      if k ∈ ins.map TxInput.key then (s.find k).map (UTXO.spentBy t) else s.find k) ∧
    L = ins.filterMap (fun vin => (s.find vin.key).map (UTXO.spentBy t)) ∧
    s1.spents = s.spents := by
  induction h with
  | done s => simp
  | miss s s1 vin rest L cs e hget hrest ih =>
    obtain ⟨h1, h2, h3⟩ := ih
    have hnone : s.find vin.key = none := by
      simp only [memDB] at hget
      show s.find (vin.key.1, vin.key.2) = none
      cases hf : s.find (vin.key.1, vin.key.2) with
      | none => rfl
      | some u => rw [hf] at hget; cases hget
    refine ⟨?_, ?_, h3⟩
    · intro k
      rw [h1 k]
      by_cases hk : k = vin.key
      · subst hk; simp [hnone]
      · simp [hk]
    · simp [hnone, h2]
  | hit s s1 vin rest L cs u hget hrest ih =>
    obtain ⟨h1, h2, h3⟩ := ih
    have hsome : s.find vin.key = some u := by
      simp only [memDB] at hget
      show s.find (vin.key.1, vin.key.2) = some u
      cases hf : s.find (vin.key.1, vin.key.2) with
      | none => rw [hf] at hget; cases hget
      | some v => rw [hf] at hget; cases hget; rfl
    have hkey : (u.TxId, u.Vout) = vin.key := MemStore.find_key hsome
    have hstep : ∀ k, MemStore.find (memDB.UpdateAddressUTXO s u.Address (u.spentBy t)).1 k =
        if vin.key = k then some (u.spentBy t) else s.find k := by
      intro k
      simp only [memDB]
      rw [MemStore.find_upsert _ _ s.spents]
      have : ((u.spentBy t).TxId, (u.spentBy t).Vout) = vin.key := hkey
      rw [this]
    refine ⟨?_, ?_, ?_⟩
    · intro k
      rw [h1 k, hstep k]
      by_cases hk : vin.key = k
      · subst hk
        simp [hsome, spentBy_spentBy]
      · have hk2 : ¬ k = vin.key := fun h => hk h.symm
        simp [hk, hk2]
    · rw [h2]
      simp only [List.filterMap_cons, hsome, Option.map_some']
      congr 1
      apply List.filterMap_congr
      intro v _
      rw [hstep]
      by_cases hk : vin.key = v.key
      · rw [if_pos hk, ← hk, hsome]; rfl
      · rw [if_neg hk]
    · rw [h3]; rfl


/-- Inserting an audit record does not change what a lookup finds. -/
theorem MemStore.find_insertSpent (s : MemStore) (r : SpentUTXO) (k : String × Nat) :
    MemStore.find (memDB.InsertSpentUTXO s r).1 k = s.find k := by
  simp only [memDB]
  split <;> rfl

/-! ## `Spent` under the handlers -/

/-- Every upsert of a resolution hands the store a UTXO with `Spent = txId`. -/
theorem Resolved.writes {σ : Type} {db : UTXODB σ} {txId : String} {s s1 : σ}
    {ins : List TxInput} {L : List UTXO} {cs : List Call}
    (h : Resolved db txId s ins s1 L cs) :
    ∀ addr r, Call.UpdateAddressUTXO addr r ∈ cs → r.Spent = txId := by
  induction h with
  | done s => intro addr r hm; cases hm
  | miss s s1 vin rest L cs e hget hrest ih =>
    intro addr r hm
    rcases List.mem_cons.1 hm with h | h
    · cases h
    · exact ih addr r h
  | hit s s1 vin rest L cs u hget hrest ih =>
    intro addr r hm
    rcases List.mem_cons.1 hm with h | h
    · cases h
    rcases List.mem_cons.1 h with h | h
    · cases h; rfl
    · exact ih addr r h

/-- Claim C6 fails: the store finds the record `(T1, 0)` with `Spent = T2`; with a
gateway accepting under `T3`, `sendTransactionV2` and `sendTransaction` each hand
`UpdateAddressUTXO` that record with `Spent = T3`, and `updateUTXO` on a request
without a `spent` field hands `UpdateAddressUTXOMandatory` that record with an empty
`Spent`. -/
theorem spent_overwritten :
    memDB.GetUTXO ⟨[spentRecord], []⟩ "T1" 0 = .ok spentRecord ∧
    spentRecord.Spent = "T2" ∧
    (sendTransactionV2 sampleCodec ⟨memDB, acceptingGateway "T3"⟩
        (formOf [("raw", "00")]) ⟨⟨[spentRecord], []⟩, []⟩).2.calls =
      [.SendTx "00", .GetUTXO "T1" 0,
       .UpdateAddressUTXO "Addr1" { spentRecord with Spent := "T3" },
       .InsertSpentUTXO ⟨"T3", [{ spentRecord with Spent := "T3" }]⟩] ∧
    (sendTransaction sampleCodec ⟨memDB, acceptingGateway "T3"⟩
        (formOf [("raw", "00"), ("spent", "[]")]) ⟨⟨[spentRecord], []⟩, []⟩).2.calls =
      [.SendTx "00", .UpdateAddressUTXO "Addr1" { spentRecord with Spent := "T3" },
       .InsertSpentUTXO ⟨"T3", [{ spentRecord with Spent := "T3" }]⟩] ∧
    (updateUTXO ⟨memDB, rejectingGateway⟩ (formOf fullForm)
        ⟨⟨[spentRecord], []⟩, []⟩).2.calls =
      [.UpdateAddressUTXOMandatory "Addr1" { spentRecord with Spent := "" }] := by
  decide

/-- Claim C6 as amended: no handler looks at the stored `Spent` before it writes; each
hands the store the `Spent` it computed. Once the gateway has accepted under `txId`,
`sendTransactionV2` resolves its inputs as `Resolved` tells, so that every record
`GetUTXO` finds is handed to `UpdateAddressUTXO` spent by `txId` whatever `Spent` it
held (the first input's record, found in the store as it was before the call, among
them), and every upsert it makes carries `Spent = txId`; `sendTransaction`, on a list
without nil pointer, hands `UpdateAddressUTXO` every supplied UTXO spent by `txId`;
`updateUTXO`, on a request that passes the checks, hands `UpdateAddressUTXOMandatory`
the requested UTXO, whose `Spent` is the `spent` field of the form, empty when the
field is absent. -/
theorem handlers_write_Spent_unguarded {σ : Type} (lib : Codec) (a : Api σ) (ct : Context)
    (w : World σ) :
    (∀ raw txId tx, ct.Form "raw" = some raw → TxDecode lib raw = .ok tx →
      a.synchronizer.SendTx raw = .ok txId →
      (∃ s1 L cs, Resolved a.storage txId w.store tx.TxIn s1 L cs ∧
        (sendTransactionV2 lib a ct w).2.calls =
          w.calls ++ [Call.SendTx raw] ++ cs ++
            [Call.InsertSpentUTXO { SpentTxId := txId, UTXOList := L }] ∧
        ∀ addr r, Call.UpdateAddressUTXO addr r ∈ cs → r.Spent = txId) ∧
      (∀ vin rest u, tx.TxIn = vin :: rest →
        a.storage.GetUTXO w.store vin.key.1 vin.key.2 = .ok u →
        Call.UpdateAddressUTXO u.Address (u.spentBy txId) ∈
          (sendTransactionV2 lib a ct w).2.calls)) ∧
    (∀ raw utxos txId (utxoList : List UTXO), ct.Form "raw" = some raw →
      ct.Form "spent" = some utxos → lib.Unmarshal utxos = .ok (utxoList.map some) →
      a.synchronizer.SendTx raw = .ok txId →
      (sendTransaction lib a ct w).2.calls =
        w.calls ++ [Call.SendTx raw] ++
          utxoList.map (fun u => Call.UpdateAddressUTXO u.Address (u.spentBy txId)) ++
          [Call.InsertSpentUTXO
            { SpentTxId := txId, UTXOList := utxoList.map (fun u => u.spentBy txId) }]) ∧
    (ValidUpdateRequest ct →
      (updateUTXO a ct w).2.calls =
        w.calls ++
          [Call.UpdateAddressUTXOMandatory (ct.formValue "address") (requestedUTXO ct)] ∧
      (requestedUTXO ct).Spent = ct.formValue "spent") ∧
    (∀ (txId : String) (u : UTXO),
      (u.spentBy txId).Spent = txId ∧ (u.spentBy txId).TxId = u.TxId ∧
      (u.spentBy txId).Vout = u.Vout ∧ (u.spentBy txId).Address = u.Address ∧
      (u.spentBy txId).Coin = u.Coin ∧ (u.spentBy txId).Amount = u.Amount ∧
      (u.spentBy txId).Lock = u.Lock) := by
  refine ⟨?_, ?_, ?_, fun _ _ => ⟨rfl, rfl, rfl, rfl, rfl, rfl, rfl⟩⟩
  · intro raw txId tx hraw hdec hsend
    obtain ⟨s1, L, cs, hr, he⟩ := resolveInputs_spec a txId tx.TxIn
      { store := w.store, calls := w.calls ++ [Call.SendTx raw] } []
    dsimp only at hr he
    have hcalls : (sendTransactionV2 lib a ct w).2.calls =
        w.calls ++ [Call.SendTx raw] ++ cs ++
          [Call.InsertSpentUTXO { SpentTxId := txId, UTXOList := L }] := by
      simp only [sendTransactionV2, hraw, hdec, hsend, World.log, he]
      simp
    refine ⟨⟨s1, L, cs, hr, hcalls, hr.writes⟩, ?_⟩
    intro vin rest u htx hget
    rw [hcalls]
    rw [htx] at hr
    cases hr with
    | miss _ _ _ _ _ cs1 e hget1 hrest => rw [hget] at hget1; cases hget1
    | hit _ _ _ _ L1 cs1 u1 hget1 hrest =>
      rw [hget] at hget1
      cases hget1
      simp
  · intro raw utxos txId utxoList hraw hspent hparse hsend
    have h := markSupplied_complete a txId utxoList
      { store := w.store, calls := w.calls ++ [Call.SendTx raw] }
    simp [sendTransaction, hraw, hspent, hparse, hsend, World.log, h]
  · intro hv
    rw [updateUTXO_of_valid a ct w hv]
    exact ⟨rfl, rfl⟩

/-- Claim C6 as amended, with the record `(T1, 0)` stored as spent by `T2`: under a
gateway accepting under `T3` both reconciliation handlers hand it to the upsert with
`Spent = T3`, its other fields untouched, and `updateUTXO` without a `spent` field hands
it to the mandatory update with an empty `Spent`. -/
theorem handlers_write_Spent_unguarded_witness :
    Call.UpdateAddressUTXO "Addr1"
        { TxId := "T1", Vout := 0, Address := "Addr1", Coin := "MEER", Amount := 100000000,
          Spent := "T3", Lock := 0 } ∈
      (sendTransactionV2 sampleCodec ⟨memDB, acceptingGateway "T3"⟩ (formOf [("raw", "00")])
        ⟨⟨[spentRecord], []⟩, []⟩).2.calls ∧
    (sendTransactionV2 sampleCodec ⟨memDB, acceptingGateway "T3"⟩ (formOf [("raw", "00")])
        ⟨⟨[spentRecord], []⟩, []⟩).2.calls =
      [.SendTx "00", .GetUTXO "T1" 0,
       .UpdateAddressUTXO "Addr1"
         { TxId := "T1", Vout := 0, Address := "Addr1", Coin := "MEER", Amount := 100000000,
           Spent := "T3", Lock := 0 },
       .InsertSpentUTXO ⟨"T3",
         [{ TxId := "T1", Vout := 0, Address := "Addr1", Coin := "MEER", Amount := 100000000,
            Spent := "T3", Lock := 0 }]⟩] ∧
    (sendTransaction sampleCodec ⟨memDB, acceptingGateway "T3"⟩
        (formOf [("raw", "00"), ("spent", "[]")]) ⟨⟨[spentRecord], []⟩, []⟩).2.calls =
      [.SendTx "00",
       .UpdateAddressUTXO "Addr1"
         { TxId := "T1", Vout := 0, Address := "Addr1", Coin := "MEER", Amount := 100000000,
           Spent := "T3", Lock := 0 },
       .InsertSpentUTXO ⟨"T3",
         [{ TxId := "T1", Vout := 0, Address := "Addr1", Coin := "MEER", Amount := 100000000,
            Spent := "T3", Lock := 0 }]⟩] ∧
    (updateUTXO ⟨memDB, rejectingGateway⟩ (formOf fullForm)
        ⟨⟨[spentRecord], []⟩, []⟩).2.calls =
      [.UpdateAddressUTXOMandatory "Addr1"
         { TxId := "T1", Vout := 0, Address := "Addr1", Coin := "MEER", Amount := 100000000,
           Spent := "", Lock := 0 }] :=
  ⟨((handlers_write_Spent_unguarded sampleCodec ⟨memDB, acceptingGateway "T3"⟩
      (formOf [("raw", "00")]) ⟨⟨[spentRecord], []⟩, []⟩).1 "00" "T3"
      { TxIn := [{ PreviousOut := { Hash := ⟨"T1"⟩, OutIndex := 0 } }] }
      (by decide) (by decide) (by decide)).2
    { PreviousOut := { Hash := ⟨"T1"⟩, OutIndex := 0 } } [] spentRecord rfl (by decide),
   by decide, by decide, by decide⟩

/-! ## Idempotence of the decode-resolve flow -/

/-- On the in-memory store, when every record the inputs name already carries
`Spent = t`, resolution leaves the store as it was and resolves the records as they
stand. -/
theorem Resolved.fixed {t : String} {s s1 : MemStore} {ins : List TxInput} {L : List UTXO}
    {cs : List Call} (h : Resolved memDB t s ins s1 L cs)
    (hsp : ∀ vin ∈ ins, ∀ u, s.find vin.key = some u → u.Spent = t) :
    s1 = s ∧ L = ins.filterMap (fun vin => s.find vin.key) := by
  induction h with
  | done s => simp
  | miss s s1 vin rest L cs e hget hrest ih =>
    obtain ⟨h1, h2⟩ := ih (fun v hv => hsp v (List.mem_cons_of_mem _ hv))
    have hnone : s.find vin.key = none := by
      simp only [memDB] at hget
      show s.find (vin.key.1, vin.key.2) = none
      cases hf : s.find (vin.key.1, vin.key.2) with
      | none => rfl
      | some u => rw [hf] at hget; cases hget
    exact ⟨h1, by simp [hnone, h2]⟩
  | hit s s1 vin rest L cs u hget hrest ih =>
    have hsome : s.find vin.key = some u := by
      simp only [memDB] at hget
      show s.find (vin.key.1, vin.key.2) = some u
      cases hf : s.find (vin.key.1, vin.key.2) with
      | none => rw [hf] at hget; cases hget
      | some v => rw [hf] at hget; cases hget; rfl
    have hu : u.spentBy t = u :=
      spentBy_of_Spent (hsp vin (List.mem_cons_self _ _) u hsome)
    have hkey : (u.TxId, u.Vout) = vin.key := MemStore.find_key hsome
    have hs : (memDB.UpdateAddressUTXO s u.Address (u.spentBy t)).1 = s := by
      simp only [memDB, hu]
      have hf : s.utxos.find? (fun v => decide (v.TxId = u.TxId ∧ v.Vout = u.Vout)) =
          some u := by
        have := hsome
        unfold MemStore.find at this
        rw [← hkey] at this
        exact this
      rw [upsert_self _ _ hf]
    rw [hs] at ih
    obtain ⟨h1, h2⟩ := ih (fun v hv => hsp v (List.mem_cons_of_mem _ hv))
    refine ⟨h1, ?_⟩
    simp [hsome, hu, h2]

/-- A second insertion under the same `SpentTxId` changes nothing. -/
theorem insertSpent_again (s : MemStore) (r r1 : SpentUTXO)
    (h : r1.SpentTxId = r.SpentTxId) :
    (memDB.InsertSpentUTXO (memDB.InsertSpentUTXO s r).1 r1).1 =
      (memDB.InsertSpentUTXO s r).1 := by
  simp only [memDB, h]
  by_cases ha : s.spents.any (fun x => decide (x.SpentTxId = r.SpentTxId)) = true
  · simp [ha]
  · simp [ha]

/-- After an insertion the store holds exactly one audit record for the txId, provided
it held at most one before. -/
theorem insertSpent_count (s : MemStore) (r : SpentUTXO)
    (h : (s.spents.filter (fun x => decide (x.SpentTxId = r.SpentTxId))).length ≤ 1) :
    ((memDB.InsertSpentUTXO s r).1.spents.filter
      (fun x => decide (x.SpentTxId = r.SpentTxId))).length = 1 := by
  simp only [memDB]
  by_cases ha : s.spents.any (fun x => decide (x.SpentTxId = r.SpentTxId)) = true
  · rw [if_pos ha]
    have hpos : 0 < (s.spents.filter (fun x => decide (x.SpentTxId = r.SpentTxId))).length := by
      rw [List.length_pos]
      intro hnil
      rw [List.any_eq_true] at ha
      obtain ⟨x, hx, hp⟩ := ha
      have : x ∈ s.spents.filter (fun x => decide (x.SpentTxId = r.SpentTxId)) :=
        List.mem_filter.2 ⟨hx, hp⟩
      rw [hnil] at this
      cases this
    simp only
    omega
  · rw [if_neg ha]
    have hnil : s.spents.filter (fun x => decide (x.SpentTxId = r.SpentTxId)) = [] := by
      rw [List.filter_eq_nil_iff]
      intro x hx hp
      exact ha (List.any_eq_true.2 ⟨x, hx, hp⟩)
    simp [List.filter_append, hnil]

/-- Claim C8: on the store of section 4.2 (upsert an overwrite keyed by `(TxId, Vout)`,
`InsertSpentUTXO` idempotent by `SpentTxId`), for a raw transaction that decodes and
that the gateway accepts under the same `txId` on both calls, running
`sendTransactionV2` a second time leaves the store exactly as the first run left it;
both runs return `txId`; both hand `InsertSpentUTXO` the same record, whose UTXOs all
carry `Spent = txId`; and the store holds exactly one SpentUTXO record for `txId`,
provided it held at most one before the first run. -/
theorem sendTransactionV2_idempotent (lib : Codec) (g1 g2 : Synchronizer) (ct : Context)
    (w : World MemStore) (raw txId : String) (tx : Transaction)
    (hraw : ct.Form "raw" = some raw) (hdec : TxDecode lib raw = .ok tx)
    (h1 : g1.SendTx raw = .ok txId) (h2 : g2.SendTx raw = .ok txId) :
    (sendTransactionV2 lib ⟨memDB, g1⟩ ct w).1 = .ok (.str txId) ∧
    (sendTransactionV2 lib ⟨memDB, g2⟩ ct (sendTransactionV2 lib ⟨memDB, g1⟩ ct w).2).1 =
      .ok (.str txId) ∧
    (sendTransactionV2 lib ⟨memDB, g2⟩ ct (sendTransactionV2 lib ⟨memDB, g1⟩ ct w).2).2.store =
      (sendTransactionV2 lib ⟨memDB, g1⟩ ct w).2.store ∧
    (∃ L, (∀ u ∈ L, u.Spent = txId) ∧
      (sendTransactionV2 lib ⟨memDB, g1⟩ ct w).2.calls.getLast? =
        some (.InsertSpentUTXO { SpentTxId := txId, UTXOList := L }) ∧
      (sendTransactionV2 lib ⟨memDB, g2⟩ ct
          (sendTransactionV2 lib ⟨memDB, g1⟩ ct w).2).2.calls.getLast? =
        some (.InsertSpentUTXO { SpentTxId := txId, UTXOList := L })) ∧
    ((w.store.spents.filter (fun x => decide (x.SpentTxId = txId))).length ≤ 1 →
      ((sendTransactionV2 lib ⟨memDB, g2⟩ ct
          (sendTransactionV2 lib ⟨memDB, g1⟩ ct w).2).2.store.spents.filter
        (fun x => decide (x.SpentTxId = txId))).length = 1) := by
  obtain ⟨s1, L1, cs1, hr1, he1⟩ := resolveInputs_spec ⟨memDB, g1⟩ txId tx.TxIn
    { store := w.store, calls := w.calls ++ [Call.SendTx raw] } []
  dsimp only at hr1 he1
  obtain ⟨hfind1, hL1, hsp1⟩ := Resolved.mem hr1
  have hrun1 : sendTransactionV2 lib ⟨memDB, g1⟩ ct w =
      (.ok (.str txId),
        { store := (memDB.InsertSpentUTXO s1 { SpentTxId := txId, UTXOList := L1 }).1
          calls := w.calls ++ [Call.SendTx raw] ++ cs1 ++
            [Call.InsertSpentUTXO { SpentTxId := txId, UTXOList := L1 }] }) := by
    simp only [sendTransactionV2, hraw, hdec, h1, World.log, he1]
    simp
  obtain ⟨s2, L2, cs2, hr2, he2⟩ := resolveInputs_spec ⟨memDB, g2⟩ txId tx.TxIn
    { store := (memDB.InsertSpentUTXO s1 { SpentTxId := txId, UTXOList := L1 }).1
      calls := w.calls ++ [Call.SendTx raw] ++ cs1 ++
        [Call.InsertSpentUTXO { SpentTxId := txId, UTXOList := L1 }] ++ [Call.SendTx raw] } []
  dsimp only at hr2 he2
  have hfindS : ∀ k, MemStore.find
      (memDB.InsertSpentUTXO s1 { SpentTxId := txId, UTXOList := L1 }).1 k =
        if k ∈ tx.TxIn.map TxInput.key then (w.store.find k).map (UTXO.spentBy txId)
        else w.store.find k := by
    intro k
    rw [MemStore.find_insertSpent]
    exact hfind1 k
  obtain ⟨hs2, hL2⟩ := Resolved.fixed hr2 (by
    intro vin hvin u hu
    rw [hfindS, if_pos (List.mem_map_of_mem _ hvin)] at hu
    cases hw : w.store.find vin.key with
    | none => rw [hw] at hu; cases hu
    | some v => rw [hw] at hu; cases hu; rfl)
  have hLL : L2 = L1 := by
    rw [hL2]
    refine Eq.trans (List.filterMap_congr ?_) hL1.symm
    intro vin hvin
    rw [hfindS, if_pos (List.mem_map_of_mem _ hvin)]
  subst hs2
  subst hLL
  have hins := insertSpent_again s1 { SpentTxId := txId, UTXOList := L2 }
    { SpentTxId := txId, UTXOList := L2 } rfl
  have hrun2 : sendTransactionV2 lib ⟨memDB, g2⟩ ct
      { store := (memDB.InsertSpentUTXO s1 { SpentTxId := txId, UTXOList := L2 }).1
        calls := w.calls ++ [Call.SendTx raw] ++ cs1 ++
          [Call.InsertSpentUTXO { SpentTxId := txId, UTXOList := L2 }] } =
      (.ok (.str txId),
        { store := (memDB.InsertSpentUTXO s1 { SpentTxId := txId, UTXOList := L2 }).1
          calls := w.calls ++ [Call.SendTx raw] ++ cs1 ++
            [Call.InsertSpentUTXO { SpentTxId := txId, UTXOList := L2 }] ++
            [Call.SendTx raw] ++ cs2 ++
            [Call.InsertSpentUTXO { SpentTxId := txId, UTXOList := L2 }] }) := by
    simp only [sendTransactionV2, hraw, hdec, h2, World.log, he2]
    simp [hins]
  refine ⟨?_, ?_, ?_, ⟨L2, hr1.facts.2.1, ?_, ?_⟩, ?_⟩
  · rw [hrun1]
  · rw [hrun1]; dsimp only; rw [hrun2]
  · rw [hrun1]; dsimp only; rw [hrun2]
  · rw [hrun1]; exact List.getLast?_concat _
  · rw [hrun1]; dsimp only; rw [hrun2]; exact List.getLast?_concat _
  · intro hc
    rw [hrun1]; dsimp only; rw [hrun2]; dsimp only
    rw [← hsp1] at hc
    exact insertSpent_count s1 { SpentTxId := txId, UTXOList := L2 } hc

/-- Claim C8 on the store holding the unspent record, the gateway accepting under
`T2`. -/
theorem sendTransactionV2_idempotent_witness :
    (sendTransactionV2 sampleCodec ⟨memDB, acceptingGateway "T2"⟩ (formOf [("raw", "00")])
      (sendTransactionV2 sampleCodec ⟨memDB, acceptingGateway "T2"⟩ (formOf [("raw", "00")])
        ⟨⟨[freshRecord], []⟩, []⟩).2).2.store =
      ⟨[spentRecord], [⟨"T2", [spentRecord]⟩]⟩ :=
  (sendTransactionV2_idempotent sampleCodec (acceptingGateway "T2") (acceptingGateway "T2")
      (formOf [("raw", "00")]) ⟨⟨[freshRecord], []⟩, []⟩ "00" "T2"
      { TxIn := [{ PreviousOut := { Hash := ⟨"T1"⟩, OutIndex := 0 } }] }
      (by decide) (by decide) (by decide) (by decide)).2.2.1.trans (by decide)

end ExchangeLib
